import Mathlib

/-!
Verification of core properties of a GraphBLAS-style sparse linear algebra
engine, against a shallow embedding of its C sources.

The embedding covers:
* the opcode / type-code model and `GB_AxB_semiring_builtin`
  (Source/GB_AxB_semiring_builtin.c);
* the element-wise multiply merge kernel (Source/Template/GB_emult_template.c);
* the dot-product inner loop with terminal short-circuit (Source/GB_AxB_dot.c);
* the pattern-only operand logic of the dot engine (Source/GB_AxB_dot.c);
* the masked accumulation protocol and the transplant fast path
  (Source/GB_ewise.c);
* the up-front operand validation of GB_ewise (Source/GB_ewise.c);
* export / import of CSC matrices (Source/GxB_Matrix_export_CSC.c,
  Source/GxB_Matrix_import_CSC.c);
* the FIRST-accumulator fast paths (Source/GB_dense_accum_sparse.c,
  Source/GB_subassign_23.c).
-/

namespace GraphBLAS

--------------------------------------------------------------------------------
-- Opcodes and type codes
--------------------------------------------------------------------------------

/-- Binary-operator opcodes, following the closed list of built-in opcodes used
by the engine (FIRST, SECOND, PAIR, ANY, arithmetic, comparison, IS-ops,
logical ops), the positional opcodes, and the two user arms
(`GB_USER_C_opcode` for user operators compiled with the library, and
`GB_USER_R_opcode` for run-time user operators).  The C enum places the two
user arms last, so the test `opcode >= GB_USER_C_opcode` holds exactly for
`USER_C` and `USER_R`. -/
inductive GB_Opcode where
  | FIRST | SECOND | PAIR | ANY
  | MIN | MAX | PLUS | MINUS | RMINUS | TIMES | DIV | RDIV
  | ISEQ | ISNE | ISGT | ISLT | ISGE | ISLE
  | LOR | LAND | LXOR
  | EQ | NE | GT | LT | GE | LE
  | FIRSTI | FIRSTJ | SECONDI | SECONDJ
  | USER_C | USER_R
deriving DecidableEq, Repr

/-- Tests `opcode >= GB_USER_C_opcode`: the opcode is one of the two user
arms, which sit at the end of the C enum. -/
def GB_Opcode.isUser : GB_Opcode → Bool
  | .USER_C => true
  | .USER_R => true
  | _ => false

/-- `GB_OPCODE_IS_POSITIONAL`: the opcode is a positional binary operator. -/
def GB_Opcode.isPositional : GB_Opcode → Bool
  | .FIRSTI => true
  | .FIRSTJ => true
  | .SECONDI => true
  | .SECONDJ => true
  | _ => false

/-- Type codes of the engine: the eleven built-in codes, then
`GB_UCT_code` (user type compiled with the library) and `GB_UDT_code`
(run-time user type).  The C enum places the two user codes last, so the
test `code >= GB_UCT_code` holds exactly for `UCT` and `UDT`. -/
inductive GB_Type_code where
  | BOOL | INT8 | UINT8 | INT16 | UINT16 | INT32 | UINT32 | INT64 | UINT64
  | FP32 | FP64 | UCT | UDT
deriving DecidableEq, Repr

/-- Tests `code >= GB_UCT_code`: the type code is one of the two user codes. -/
def GB_Type_code.isUser : GB_Type_code → Bool
  | .UCT => true
  | .UDT => true
  | _ => false

/-- A type descriptor: its type code, plus a tag distinguishing distinct
descriptor objects that share a code (the C code compares type descriptors
by pointer; two separately created user types are unequal even though both
have code `UDT`). -/
structure GrB_Type where
  code : GB_Type_code
  tag : Nat
deriving DecidableEq, Repr

/-- A binary operator descriptor: output type `ztype`, input types
`xtype`, `ytype`, and an opcode. -/
structure GrB_BinaryOp where
  ztype : GrB_Type
  xtype : GrB_Type
  ytype : GrB_Type
  opcode : GB_Opcode
deriving DecidableEq, Repr

/-- A semiring descriptor: the additive monoid's operator (`semiring->add->op`
in the C code) and the multiplier (`semiring->multiply`). -/
structure GrB_Semiring where
  add : GrB_BinaryOp
  multiply : GrB_BinaryOp
deriving DecidableEq, Repr

--------------------------------------------------------------------------------
-- GB_boolean_rename and GB_AxB_semiring_builtin
--------------------------------------------------------------------------------

/-- Modelled from the spec: `GB_boolean_rename` (declared in GB.h, which is not
under src/).  Its renaming table is documented both in the spec (§4.4.3) and in
the comment of Source/GB_AxB_semiring_builtin.c lines 106-115: when the
operator's inputs (or the monoid's type) are boolean, redundant opcodes are
renamed to canonical ones: DIV→FIRST, RDIV→SECOND, MIN/TIMES→LAND,
MAX/PLUS→LOR, NE/ISNE/RMINUS/MINUS→LXOR, ISEQ→EQ, ISGT→GT, ISLT→LT,
ISGE→GE, ISLE→LE; all other opcodes are unchanged. -/
def GB_boolean_rename : GB_Opcode → GB_Opcode
  | .DIV => .FIRST
  | .RDIV => .SECOND
  | .MIN => .LAND
  | .TIMES => .LAND
  | .MAX => .LOR
  | .PLUS => .LOR
  | .NE => .LXOR
  | .ISNE => .LXOR
  | .RMINUS => .LXOR
  | .MINUS => .LXOR
  | .ISEQ => .EQ
  | .ISGT => .GT
  | .ISLT => .LT
  | .ISGE => .GE
  | .ISLE => .LE
  | op => op

/-- The `switch (*mult_opcode)` of Source/GB_AxB_semiring_builtin.c lines
140-174: when `flipxy` is requested, the multiply opcode is rewritten by
swapping FIRST↔SECOND, GT↔LT, GE↔LE, ISGT↔ISLT, ISGE↔ISLE, DIV↔RDIV,
MINUS↔RMINUS; the default case leaves the opcode unchanged. -/
def GB_flip_opcode : GB_Opcode → GB_Opcode
  | .FIRST => .SECOND
  | .SECOND => .FIRST
  | .GT => .LT
  | .LT => .GT
  | .GE => .LE
  | .LE => .GE
  | .ISGT => .ISLT
  | .ISLT => .ISGT
  | .ISGE => .ISLE
  | .ISLE => .ISGE
  | .DIV => .RDIV
  | .RDIV => .DIV
  | .MINUS => .RMINUS
  | .RMINUS => .MINUS
  | op => op

/-- The outputs of `GB_AxB_semiring_builtin` when it returns true: the
(possibly renamed and flipped) multiply and add opcodes, and the x/y and z
type codes of the multiplier. -/
structure SemiringBuiltin where
  mult_opcode : GB_Opcode
  add_opcode : GB_Opcode
  xycode : GB_Type_code
  zcode : GB_Type_code
deriving DecidableEq, Repr

/-- Embedding of `GB_AxB_semiring_builtin` (Source/GB_AxB_semiring_builtin.c).
`Atype` and `Btype` stand for `A->type` and `B->type`.  Returns `none` where
the C function returns false (outputs unused by the caller), and
`some` of the four outputs where it returns true.  The control flow follows
the source: the type checks against the multiplier's x/y types (flipped when
`flipxy`), the user-opcode check, the boolean renaming of the multiply and add
opcodes, and finally the flipxy rewrite of the multiply opcode. -/
def GB_AxB_semiring_builtin
    (Atype : GrB_Type) (A_is_pattern : Bool)
    (Btype : GrB_Type) (B_is_pattern : Bool)
    (semiring : GrB_Semiring) (flipxy : Bool) : Option SemiringBuiltin :=
  let add := semiring.add
  let mult := semiring.multiply
  if !A_is_pattern &&
      (decide (Atype ≠ (if flipxy then mult.ytype else mult.xtype)) ||
       Atype.code.isUser) then
    none
  else if !B_is_pattern &&
      (decide (Btype ≠ (if flipxy then mult.xtype else mult.ytype)) ||
       Btype.code.isUser) then
    none
  else if !A_is_pattern && !B_is_pattern && decide (Atype ≠ Btype) then
    none
  else if add.opcode.isUser || mult.opcode.isUser then
    none
  else
    let xycode := mult.xtype.code
    let zcode := mult.ztype.code
    let mult_opcode :=
      if xycode = .BOOL then GB_boolean_rename mult.opcode else mult.opcode
    let add_opcode :=
      if zcode = .BOOL then GB_boolean_rename add.opcode else add.opcode
    let mult_opcode :=
      if flipxy then GB_flip_opcode mult_opcode else mult_opcode
    some ⟨mult_opcode, add_opcode, xycode, zcode⟩

--------------------------------------------------------------------------------
-- Sparse vectors
--------------------------------------------------------------------------------

/-- One vector (column) of a sparse matrix: the list of (inner index, value)
pairs, in the order they are stored in `Ai`/`Ax`.  The matrix invariant makes
the inner indices strictly increasing and below `vlen`; theorems take those as
hypotheses. -/
abbrev SpVec (V : Type) := List (Nat × V)

/-- The value of a sparse vector at inner index `i`, if an entry is present.
`GB_BINARY_SEARCH` (declared in GB.h, which is not under src/) is modelled
extensionally through this function: on a vector with strictly increasing
indices, the binary search finds index `i` exactly when an entry with that
index is present, at the position of that entry. -/
def SpVec.lookup {V : Type} : SpVec V → Nat → Option V
  | [], _ => none
  | (k, v) :: t, i => if k = i then some v else SpVec.lookup t i

--------------------------------------------------------------------------------
-- GB_emult_template: C = A.*B and C<M> = A.*B, one vector at a time
--------------------------------------------------------------------------------

variable {VA VB VC MV : Type}

/-- The `adense && bdense` branch of GB_emult_template.c (lines 241-266):
`for p in [0, ajnz)`, the entry `i = p + iA_first` receives
`op (Ax [pA+p]) (Bx [pB+p])`.  `dB` is the value read if `p` runs past `b`
(the C code indexes `Bx` unconditionally; the branch is only entered with
`ajnz == bjnz`). -/
def GB_emult_both_dense (op : VA → VB → VC) (dA : VA) (dB : VB) (iA_first : Nat)
    (a : SpVec VA) (b : SpVec VB) : SpVec VC :=
  (List.range a.length).map (fun p =>
    (p + iA_first, op (a.getD p (0, dA)).2 (b.getD p (0, dB)).2))

/-- The `adense` branch of GB_emult_template.c (lines 267-289): for each entry
`(i, bij)` of the sparse `B(:,j)`, the value of `A(:,j)` is read by direct
lookup at position `i - iA_first` (`dA` is the value of an out-of-range read,
which cannot happen when `A(:,j)` is dense). -/
def GB_emult_a_dense (op : VA → VB → VC) (dA : VA) (iA_first : Nat)
    (a : SpVec VA) (b : SpVec VB) : SpVec VC :=
  b.map (fun e => (e.1, op (a.getD (e.1 - iA_first) (0, dA)).2 e.2))

/-- The `bdense` branch of GB_emult_template.c (lines 290-312): for each entry
`(i, aij)` of the sparse `A(:,j)`, the value of `B(:,j)` is read by direct
lookup at position `i - iB_first`. -/
def GB_emult_b_dense (op : VA → VB → VC) (dB : VB) (iB_first : Nat)
    (a : SpVec VA) (b : SpVec VB) : SpVec VC :=
  a.map (fun e => (e.1, op e.2 (b.getD (e.1 - iB_first) (0, dB)).2))

/-- The `ajnz > 32 * bjnz` branch of GB_emult_template.c (lines 313-345):
for each entry of `B(:,j)`, binary-search its index in `A(:,j)`; emit an
entry only when found. -/
def GB_emult_search_a (op : VA → VB → VC)
    (a : SpVec VA) (b : SpVec VB) : SpVec VC :=
  b.filterMap (fun e => (SpVec.lookup a e.1).map (fun av => (e.1, op av e.2)))

/-- The `bjnz > 32 * ajnz` branch of GB_emult_template.c (lines 346-378):
for each entry of `A(:,j)`, binary-search its index in `B(:,j)`. -/
def GB_emult_search_b (op : VA → VB → VC)
    (a : SpVec VA) (b : SpVec VB) : SpVec VC :=
  a.filterMap (fun e => (SpVec.lookup b e.1).map (fun bv => (e.1, op e.2 bv)))

/-- The final linear-time two-pointer merge of GB_emult_template.c
(lines 379-423): advance past unmatched indices; on a match emit
`(iB, op aij bij)` and advance both. -/
def GB_emult_merge (op : VA → VB → VC) : SpVec VA → SpVec VB → SpVec VC
  | [], _ => []
  | _ :: _, [] => []
  | (iA, av) :: ta, (iB, bv) :: tb =>
    if iA < iB then GB_emult_merge op ta ((iB, bv) :: tb)
    else if iB < iA then GB_emult_merge op ((iA, av) :: ta) tb
    else (iB, op av bv) :: GB_emult_merge op ta tb
termination_by a b => a.length + b.length

/-- Embedding of the unmasked (`M == NULL`) cases of GB_emult_template.c
for one whole vector `C(:,j)` (a coarse task, `len = vlen`): the phase-1
quick checks for an empty or range-disjoint intersection, then the branch
on `adense`/`bdense` (`ajnz == len`, `bjnz == len`), the two binary-search
branches, or the linear merge.  Phase 1 counts and phase 2 fills the same
entries; the embedding produces the filled entries directly.  `dA`, `dB` are
the values produced by an out-of-range array read. -/
def GB_emult_vector (vlen : Nat) (op : VA → VB → VC) (dA : VA) (dB : VB)
    (a : SpVec VA) (b : SpVec VB) : SpVec VC :=
  let ajnz := a.length
  let bjnz := b.length
  let iA_first := (a.headD (0, dA)).1
  let iA_last := (a.getLastD (0, dA)).1
  let iB_first := (b.headD (0, dB)).1
  let iB_last := (b.getLastD (0, dB)).1
  if ajnz = 0 ∨ bjnz = 0 then []
  else if iA_last < iB_first ∨ iB_last < iA_first then []
  else if ajnz = vlen ∧ bjnz = vlen then
    GB_emult_both_dense op dA dB iA_first a b
  else if ajnz = vlen then
    GB_emult_a_dense op dA iA_first a b
  else if bjnz = vlen then
    GB_emult_b_dense op dB iB_first a b
  else if ajnz > 32 * bjnz then
    GB_emult_search_a op a b
  else if bjnz > 32 * ajnz then
    GB_emult_search_b op a b
  else
    GB_emult_merge op a b

/-- The per-mask-entry body of the masked case of GB_emult_template.c
(lines 465-528): for one entry `(i, mv)` of `M(:,j)`, evaluate
`mij = GB_mcast (Mx, pM, msize)` (`Mx == NULL`, hence true, when
`Mask_struct`); skip if false; then read `A(i,j)` (direct lookup at
`pA_start + i - iA_first` when `A(:,j)` is dense, else binary search,
skipping the entry when not found), then `B(i,j)` likewise, and emit
`op aij bij`. -/
def GB_emult_mask_entry (vlen : Nat) (op : VA → VB → VC) (dA : VA) (dB : VB)
    (mcast : MV → Bool) (Mask_struct : Bool)
    (a : SpVec VA) (b : SpVec VB) (e : Nat × MV) : Option (Nat × VC) :=
  let i := e.1
  let mij := if Mask_struct then true else mcast e.2
  if !mij then none
  else
    let av? : Option VA :=
      if a.length = vlen then some (a.getD (i - (a.headD (0, dA)).1) (0, dA)).2
      else SpVec.lookup a i
    match av? with
    | none => none
    | some av =>
      let bv? : Option VB :=
        if b.length = vlen then
          some (b.getD (i - (b.headD (0, dB)).1) (0, dB)).2
        else SpVec.lookup b i
      match bv? with
      | none => none
      | some bv => some (i, op av bv)

/-- Embedding of the masked case of GB_emult_template.c (lines 426-533) for
one whole vector: the phase-1 quick checks for an empty or range-disjoint
intersection (lines 210-236, which precede the mask branch in the
template), then the scan of `M(:,j)` with `GB_emult_mask_entry` applied to
each mask entry. -/
def GB_emult_vector_masked (vlen : Nat) (op : VA → VB → VC) (dA : VA) (dB : VB)
    (mcast : MV → Bool) (Mask_struct : Bool)
    (a : SpVec VA) (b : SpVec VB) (m : SpVec MV) : SpVec VC :=
  let ajnz := a.length
  let bjnz := b.length
  let iA_first := (a.headD (0, dA)).1
  let iA_last := (a.getLastD (0, dA)).1
  let iB_first := (b.headD (0, dB)).1
  let iB_last := (b.getLastD (0, dB)).1
  if ajnz = 0 ∨ bjnz = 0 then []
  else if iA_last < iB_first ∨ iB_last < iA_first then []
  else
    m.filterMap (GB_emult_mask_entry vlen op dA dB mcast Mask_struct a b)

/-- The set-intersection specification of element-wise multiply at one
position: position `i` of `C(:,j)` gets value `v` iff entries are present at
`i` in both `A(:,j)` and `B(:,j)` and `v` is the operator applied to them. -/
def emultSpec {VA VB VC : Type} (op : VA → VB → VC)
    (a : SpVec VA) (b : SpVec VB) (i : Nat) (v : VC) : Prop :=
  ∃ av bv, SpVec.lookup a i = some av ∧ SpVec.lookup b i = some bv ∧
    v = op av bv

--------------------------------------------------------------------------------
-- GB_AxB_dot: terminal short-circuit and pattern-only operands
--------------------------------------------------------------------------------

/-- Modelled from the spec (§4.4.5): the dot-product inner accumulation loop of
GB_AxB_dot_meta.c (not under src/), instantiated with the `GB_DOT_ADD` and
`GB_DOT_TERMINAL` macros of Source/GB_AxB_dot.c lines 314-322: starting from
the current cell value `cij`, each product `t` is accumulated by
`cij = fadd (cij, t)`, and when the monoid has a terminal value the loop
breaks as soon as `cij` compares equal to it (`memcmp` on the byte images,
modelled as equality). -/
def GB_dot_reduce {V : Type} [DecidableEq V] (fadd : V → V → V)
    (terminal : Option V) : V → List V → V
  | cij, [] => cij
  | cij, t :: ts =>
    let cij2 := fadd cij t
    match terminal with
    | some tv => if cij2 = tv then cij2 else GB_dot_reduce fadd terminal cij2 ts
    | none => GB_dot_reduce fadd terminal cij2 ts

/-- Source/GB_AxB_dot.c lines 76-96: the `(A_is_pattern, B_is_pattern)` flags.
With `flipxy`, `z = fmult (b, a)` is computed, so `A` is pattern-only when the
multiplier is FIRST and `B` when it is SECOND; without `flipxy` the roles are
reversed. -/
def GB_AxB_dot_pattern_flags (mult_opcode : GB_Opcode) (flipxy : Bool) :
    Bool × Bool :=
  let op_is_first := decide (mult_opcode = GB_Opcode.FIRST)
  let op_is_second := decide (mult_opcode = GB_Opcode.SECOND)
  if flipxy then (op_is_first, op_is_second) else (op_is_second, op_is_first)

/-- The accumulation shape of a dot product over the merged common entries:
absent when there is none (`GB_DOT_CLEAR`/`GB_DOT_COPY` never run), else the
first product folded with the monoid over the remaining ones. -/
def dotFold {α Z : Type} (fadd : Z → Z → Z) (t : α → Z) : List α → Option Z
  | [] => none
  | e :: rest => some (rest.foldl (fun cij f => fadd cij (t f)) (t e))

/-- Modelled from the spec (§4.4.2): the generic dot product of one entry
`C(i,j) = ⊕_k A(k,i) ⊗ B(k,j)` (the loop skeleton of GB_AxB_dot_meta.c is not
under src/), instantiated with the `GB_GETA`/`GB_GETB` macros of
Source/GB_AxB_dot.c lines 302-307: the value of `A` (resp. `B`) is fetched and
cast only when `A_is_pattern` (resp. `B_is_pattern`) is false, so a
pattern-only operand contributes the untouched scalar workspace `a0` (resp.
`b0`) to the multiplier; when `flipxy`, `GB_MULTIPLY (t, aki, bkj)` is
`fmult (bkj, aki)` (lines 339-350).  The common indices of the two vectors
are enumerated by the same two-pointer merge as the element-wise kernel;
`none` is returned when there is no common index (the cell stays absent). -/
def GB_dot_generic {VA VB T Z : Type} (A_is_pattern B_is_pattern : Bool)
    (flipxy : Bool) (fmult : T → T → Z) (fadd : Z → Z → Z)
    (castA : VA → T) (castB : VB → T) (a0 b0 : T)
    (a : SpVec VA) (b : SpVec VB) : Option Z :=
  let tprod : Nat × VA × VB → Z := fun e =>
    let aki := if A_is_pattern then a0 else castA e.2.1
    let bkj := if B_is_pattern then b0 else castB e.2.2
    if flipxy then fmult bkj aki else fmult aki bkj
  dotFold fadd tprod (GB_emult_merge (fun av bv => (av, bv)) a b)

--------------------------------------------------------------------------------
-- Error codes
--------------------------------------------------------------------------------

/-- The GrB_Info return codes used by the embedded functions. -/
inductive GrB_Info where
  | GrB_SUCCESS
  | GrB_NO_VALUE
  | GrB_OUT_OF_MEMORY
  | GrB_INVALID_VALUE
  | GrB_INVALID_OBJECT
  | GrB_INDEX_OUT_OF_BOUNDS
  | GrB_DIMENSION_MISMATCH
  | GrB_DOMAIN_MISMATCH
  | GrB_UNINITIALIZED_OBJECT
  | GrB_NULL_POINTER
  | GrB_OUTPUT_NOT_EMPTY
  | GrB_PANIC
deriving DecidableEq, Repr

--------------------------------------------------------------------------------
-- Masked accumulation protocol and the transplant fast path
--------------------------------------------------------------------------------

/-- A matrix by its logical content: the (optional) value at each position. -/
abbrev Mat (V : Type) := Nat → Nat → Option V

/-- Modelled from the spec (§4.3): evaluation of the mask at one cell.
An absent mask is treated as true; a present mask is true where an entry is
present and (unless `Mask_struct`) its value casts to true; `Mask_comp`
inverts the logical mask. -/
def maskEval {MB : Type} (M : Option (Mat MB)) (mcast : MB → Bool)
    (Mask_struct Mask_comp : Bool) (i j : Nat) : Bool :=
  let raw :=
    match M with
    | none => true
    | some Mm =>
      match Mm i j with
      | none => false
      | some mv => if Mask_struct then true else mcast mv
  if Mask_comp then !raw else raw

/-- Modelled from the spec (§4.3): the masked accumulation protocol
`C⟨M,replace,comp,struct⟩ ⊕= Z` applied cell by cell (GB_accum_mask is not
under src/).  Where the mask is false, the cell is deleted if `C_replace`
and kept otherwise; where it is true, without `accum` the cell becomes the
(typecast) `Z` cell, and with `accum` the present/present case accumulates,
a lone `Z` entry is typecast in, and a lone `C` entry is kept. -/
def accum_mask_protocol {MB Z V : Type} (C : Mat V) (M : Option (Mat MB))
    (mcast : MB → Bool) (Mask_struct Mask_comp : Bool)
    (accum : Option (V → V → V)) (castZ : Z → V)
    (Zt : Mat Z) (C_replace : Bool) : Mat V :=
  fun i j =>
    if maskEval M mcast Mask_struct Mask_comp i j then
      match accum with
      | none => (Zt i j).map castZ
      | some acc =>
        match C i j, Zt i j with
        | some c, some z => some (acc c (castZ z))
        | none, some z => some (castZ z)
        | some c, none => some c
        | none, none => none
    else
      if C_replace then none else C i j

/-- The transplant fast path of Source/GB_ewise.c lines 402-414: `C` is
discarded and `T` is transplanted as `C = (ctype) T`, typecasting each value
if needed. -/
def GB_transplant {Z V : Type} (castZ : Z → V) (Zt : Mat Z) : Mat V :=
  fun i j => (Zt i j).map castZ

--------------------------------------------------------------------------------
-- GB_ewise: up-front operand validation
--------------------------------------------------------------------------------

/-- Modelled from the spec: `GB_Type_compatible` (not under src/): values of
one type can be typecast to another iff both types are built-in, or the two
types are identical (user-defined types are compatible only with
themselves). -/
def GB_Type_compatible (t1 t2 : GrB_Type) : Bool :=
  (!t1.code.isUser && !t2.code.isUser) || decide (t1 = t2)

/-- Modelled from the spec: `GB_compatible` (not under src/): the domain
checks for `C⟨M⟩ = accum (C, T)`.  Without `accum`, `C` must be typecast
compatible with `T`; with `accum`, `C` must be compatible with the
accumulator's `z` and `x` types and `T` with its `y` type; the mask type,
when present, must be castable to boolean (a built-in type). -/
def GB_compatible_model (ctype : GrB_Type) (Mtype : Option GrB_Type)
    (accum : Option GrB_BinaryOp) (ttype : GrB_Type) : Bool :=
  (match accum with
   | none => GB_Type_compatible ctype ttype
   | some acc =>
     GB_Type_compatible ctype acc.ztype &&
     GB_Type_compatible ctype acc.xtype &&
     GB_Type_compatible ttype acc.ytype) &&
  (match Mtype with
   | none => true
   | some mt => !mt.code.isUser)

/-- Modelled from the spec: `GB_BinaryOp_compatible` (not under src/) for
`T = op (A, B)` with no output typecast requested: `A` must be typecast
compatible with the operator's `x` type and `B` with its `y` type. -/
def GB_BinaryOp_compatible_model (op : GrB_BinaryOp)
    (atype btype : GrB_Type) : Bool :=
  GB_Type_compatible atype op.xtype && GB_Type_compatible btype op.ytype

/-- A matrix as seen by the argument checks of GB_ewise: its user-view
dimensions (`GB_NROWS`/`GB_NCOLS`), its type, and its logical content. -/
structure EwMatrix (V : Type) where
  nrows : Nat
  ncols : Nat
  type : GrB_Type
  entries : Mat V

/-- The inputs of GB_ewise (Source/GB_ewise.c). -/
structure EwiseInputs (V : Type) where
  C : EwMatrix V
  C_replace : Bool
  M : Option (EwMatrix V)
  Mask_comp : Bool
  Mask_struct : Bool
  accum : Option GrB_BinaryOp
  op : GrB_BinaryOp
  A : EwMatrix V
  A_transpose : Bool
  B : EwMatrix V
  B_transpose : Bool
  eWiseAdd : Bool

/-- Embedding of the argument-checking prefix of GB_ewise
(Source/GB_ewise.c lines 57-115), with everything from the quick-mask test
onward abstracted as `rest` (the remainder of the function, which may modify
`C`).  In source order: the positional-accumulator check
(`GB_RETURN_IF_FAULTY_OR_POSITIONAL`), the `GB_compatible` domain check for
`C⟨M⟩ = accum (C,T)`, the `GB_BinaryOp_compatible` check for `T = op (A,B)`,
the two eWiseAdd typecast checks of `C` against `A` and `B`, and the
dimension check on the transpose-adjusted dimensions.  Each failing check
returns its error with `C` unmodified. -/
def GB_ewise_front {V : Type} (rest : EwiseInputs V → GrB_Info × EwMatrix V)
    (inp : EwiseInputs V) : GrB_Info × EwMatrix V :=
  if (match inp.accum with
      | some acc => acc.opcode.isPositional
      | none => false) then
    (.GrB_DOMAIN_MISMATCH, inp.C)
  else if !GB_compatible_model inp.C.type (inp.M.map (·.type)) inp.accum
      inp.op.ztype then
    (.GrB_DOMAIN_MISMATCH, inp.C)
  else if !GB_BinaryOp_compatible_model inp.op inp.A.type inp.B.type then
    (.GrB_DOMAIN_MISMATCH, inp.C)
  else if inp.eWiseAdd && !GB_Type_compatible inp.C.type inp.A.type then
    (.GrB_DOMAIN_MISMATCH, inp.C)
  else if inp.eWiseAdd && !GB_Type_compatible inp.C.type inp.B.type then
    (.GrB_DOMAIN_MISMATCH, inp.C)
  else
    let anrows := if inp.A_transpose then inp.A.ncols else inp.A.nrows
    let ancols := if inp.A_transpose then inp.A.nrows else inp.A.ncols
    let bnrows := if inp.B_transpose then inp.B.ncols else inp.B.nrows
    let bncols := if inp.B_transpose then inp.B.nrows else inp.B.ncols
    let cnrows := inp.C.nrows
    let cncols := inp.C.ncols
    if anrows ≠ bnrows ∨ ancols ≠ bncols ∨
        cnrows ≠ anrows ∨ cncols ≠ bncols then
      (.GrB_DIMENSION_MISMATCH, inp.C)
    else
      rest inp

--------------------------------------------------------------------------------
-- GxB_Matrix_export_CSC
--------------------------------------------------------------------------------

/-- The four sparsity formats. -/
inductive GB_Sparsity where
  | hypersparse | sparse | bitmap | full
deriving DecidableEq, Repr

/-- The pending-work and format state of a matrix, the part of the matrix
that the export path manipulates. -/
structure GB_MatrixState where
  is_csc : Bool
  sparsity : GB_Sparsity
  nzombies : Nat
  npending : Nat
  jumbled : Bool
deriving DecidableEq, Repr

/-- Modelled from the spec (§4.7): the in-place `A = A'` transpose used by the
export path to put `A` in CSC form; it flips the orientation and is
conservatively modelled as leaving the pending-work flags unchanged. -/
def GB_transpose_to_csc (A : GB_MatrixState) : GB_MatrixState :=
  { A with is_csc := true }

/-- Modelled from the spec (§4.2): `GB_MATRIX_WAIT` — remove zombies,
assemble pending tuples, sort jumbled vectors; afterwards all three flags
are clear. -/
def GB_matrix_wait (A : GB_MatrixState) : GB_MatrixState :=
  { A with nzombies := 0, npending := 0, jumbled := false }

/-- Modelled from the spec (§4.2): `GB_MATRIX_WAIT_IF_PENDING_OR_ZOMBIES` —
remove zombies and assemble pending tuples but leave the vectors unsorted
(the jumbled flag is kept). -/
def GB_matrix_wait_if_pending_or_zombies (A : GB_MatrixState) : GB_MatrixState :=
  { A with nzombies := 0, npending := 0 }

/-- Modelled from the spec (§4.1, any→sparse): conversion of any format to
sparse. -/
def GB_convert_any_to_sparse_model (A : GB_MatrixState) : GB_MatrixState :=
  { A with sparsity := .sparse }

/-- Embedding of GxB_Matrix_export_CSC (Source/GxB_Matrix_export_CSC.c):
transpose in place when the matrix is not CSC; then wait fully when the
caller passed no `jumbled` output (`jumbled == NULL`), and otherwise resolve
only pending tuples and zombies; then convert to sparse and export, filling
`*jumbled` from the matrix when requested.  Returns the exported matrix
state and the value stored through `jumbled`. -/
def GxB_Matrix_export_CSC_model (A : GB_MatrixState) (jumbled_given : Bool) :
    GB_MatrixState × Option Bool :=
  let A1 := if !A.is_csc then GB_transpose_to_csc A else A
  let A2 :=
    if !jumbled_given then GB_matrix_wait A1
    else GB_matrix_wait_if_pending_or_zombies A1
  let A3 := GB_convert_any_to_sparse_model A2
  (A3, if jumbled_given then some A3.jumbled else none)

--------------------------------------------------------------------------------
-- GB_dense_accum_sparse and GB_subassign_23
--------------------------------------------------------------------------------

/-- Modelled from the spec: the body of GB_dense_accum_sparse_template.c /
GB_subassign_23_template.c (not under src/): for each entry `(i, j, a)` of
the sparse `A`, the dense `C` is updated by `C(i,j) = f (C(i,j), a)`. -/
def dense_accum_entries {V W : Type} (f : V → W → V) (C : Nat → Nat → V)
    (A : List (Nat × Nat × W)) : Nat → Nat → V :=
  A.foldl
    (fun Cc e => fun i j =>
      if i = e.1 ∧ j = e.2.1 then f (Cc i j) e.2.2 else Cc i j)
    C

/-- Embedding of GB_dense_accum_sparse (Source/GB_dense_accum_sparse.c):
`C += A` with `C` dense.  When the accumulator's opcode is FIRST there is
nothing to do and the function returns success at once (lines 48-52);
otherwise the entries of `A` are accumulated into `C` with the accumulator
function `f` and success is returned. -/
def GB_dense_accum_sparse_model {V W : Type} (C : Nat → Nat → V)
    (A : List (Nat × Nat × W)) (accum_opcode : GB_Opcode) (f : V → W → V) :
    GrB_Info × (Nat → Nat → V) :=
  if accum_opcode = .FIRST then (.GrB_SUCCESS, C)
  else (.GrB_SUCCESS, dense_accum_entries f C A)

/-- Embedding of GB_subassign_23 (Source/GB_subassign_23.c): `C += A` with
`C` dense.  When the accumulator's opcode is FIRST, or `C` is iso, there is
nothing to do (lines 85-89); otherwise the entries of `A` are accumulated
into `C`.  (`GB_ENSURE_FULL` may change `C`'s storage format first; the
logical content, which this model tracks, is unchanged by it.) -/
def GB_subassign_23_model {V W : Type} (C : Nat → Nat → V) (C_iso : Bool)
    (A : List (Nat × Nat × W)) (accum_opcode : GB_Opcode) (f : V → W → V) :
    GrB_Info × (Nat → Nat → V) :=
  if accum_opcode = .FIRST ∨ C_iso = true then (.GrB_SUCCESS, C)
  else (.GrB_SUCCESS, dense_accum_entries f C A)

--------------------------------------------------------------------------------
-- GxB_Matrix_import_CSC
--------------------------------------------------------------------------------

/-- The largest permitted dimension or entry count. -/
def GxB_INDEX_MAX : Nat := 2 ^ 60

/-- The matrix built by the CSC import: header fields and transplanted
arrays.  A C array pointer that may be NULL is an `Option`. -/
structure CSCImport (V : Type) where
  nrows : Nat
  ncols : Nat
  is_csc : Bool
  h : Option (List Nat)
  p : Option (List Nat)
  i : Option (List Nat)
  x : Option (List V)
  nzmax : Nat
  plen : Nat
  nvec : Nat

/-- Embedding of GxB_Matrix_import_CSC (Source/GxB_Matrix_import_CSC.c).
Each of `Ap`, `Ai`, `Ax` is a double pointer: the outer `Option` is the
handle passed by the caller, the inner `Option` the caller's array pointer.
`GB_IMPORT_CHECK` (in GB.h, not under src/) is modelled from the spec as the
bound checks on `nrows`, `ncols`, `nvals`.  `Ap` must be non-NULL, and for
`nvals > 0` so must `Ai` and `Ax`.  On success the matrix header is built
non-hypersparse (`h = NULL`), CSC, with `nzmax = nvals`, `plen = nvec =
ncols`; the caller's arrays are transplanted (or freed when `nvals = 0`,
`GB_FREE_MEMORY` setting the freed pointer to NULL) and every present handle
is left holding NULL.  Returns the matrix and the final contents of the
three handles. -/
def GxB_Matrix_import_CSC_model {V : Type} (nrows ncols nvals : Nat)
    (Ap : Option (Option (List Nat))) (Ai : Option (Option (List Nat)))
    (Ax : Option (Option (List V))) :
    Except GrB_Info
      (CSCImport V × Option (Option (List Nat)) × Option (Option (List Nat)) ×
        Option (Option (List V))) :=
  if nrows > GxB_INDEX_MAX ∨ ncols > GxB_INDEX_MAX ∨ nvals > GxB_INDEX_MAX then
    .error .GrB_INVALID_VALUE
  else if Ap.isNone then
    .error .GrB_NULL_POINTER
  else if 0 < nvals ∧ (Ai.isNone ∨ Ax.isNone) then
    .error .GrB_NULL_POINTER
  else
    let m0 : CSCImport V :=
      { nrows := nrows, ncols := ncols, is_csc := true, h := none,
        p := Ap.getD none, i := none, x := none,
        nzmax := nvals, plen := ncols, nvec := ncols }
    if nvals = 0 then
      .ok (m0, some none, Ai.map (fun _ => none), Ax.map (fun _ => none))
    else
      .ok ({ m0 with i := Ai.getD none, x := Ax.getD none },
        some none, some none, some none)

/-- The CSC invariants of an imported matrix (spec §3, data-model
invariants): column pointers of length `ncols + 1` starting at 0, monotone,
ending at `nzmax`; when `nzmax > 0`, row indices and values of length
`nzmax` with all row indices below `nrows`. -/
def CSCImportWellformed {V : Type} (m : CSCImport V) : Prop :=
  (∃ p, m.p = some p ∧ p.length = m.ncols + 1 ∧ p.headD 0 = 0 ∧
    List.Chain' (· ≤ ·) p ∧ p.getLastD 0 = m.nzmax) ∧
  (m.nzmax = 0 ∨
    ∃ il x, m.i = some il ∧ m.x = some x ∧ il.length = m.nzmax ∧
      x.length = m.nzmax ∧ ∀ r ∈ il, r < m.nrows)

--------------------------------------------------------------------------------
-- Theorems: C3 (boolean renaming) and C4 (flipxy rewrite)
--------------------------------------------------------------------------------

/-- Characterization of the accepted case of `GB_AxB_semiring_builtin`:
whenever it returns a result, that result is the boolean-renamed opcodes
with the flipxy rewrite applied to the multiply opcode last. -/
theorem GB_AxB_semiring_builtin_accepted
    (Atype Btype : GrB_Type) (A_is_pattern B_is_pattern flipxy : Bool)
    (s : GrB_Semiring) (r : SemiringBuiltin)
    (h : GB_AxB_semiring_builtin Atype A_is_pattern Btype B_is_pattern s
          flipxy = some r) :
    r = ⟨(if flipxy then
            GB_flip_opcode (if s.multiply.xtype.code = .BOOL then
              GB_boolean_rename s.multiply.opcode else s.multiply.opcode)
          else (if s.multiply.xtype.code = .BOOL then
              GB_boolean_rename s.multiply.opcode else s.multiply.opcode)),
         (if s.multiply.ztype.code = .BOOL then
            GB_boolean_rename s.add.opcode else s.add.opcode),
         s.multiply.xtype.code, s.multiply.ztype.code⟩ := by
  simp only [GB_AxB_semiring_builtin] at h
  repeat' split at h
  all_goals simp_all

/-- C3: for every built-in semiring accepted by `GB_AxB_semiring_builtin`,
when the multiplier's input type is boolean the returned multiply opcode is
the boolean renaming of the original (DIV→FIRST, RDIV→SECOND,
MIN/TIMES→LAND, MAX/PLUS→LOR, NE/ISNE/RMINUS/MINUS→LXOR, ISEQ→EQ, ISGT→GT,
ISLT→LT, ISGE→GE, ISLE→LE), and when the monoid's output type is boolean the
returned add opcode is likewise renamed; the renaming is applied before the
flipxy rewrite (the returned multiply opcode is the flipxy rewrite of the
renamed opcode, not the renaming of the rewritten one). -/
theorem GB_boolean_rename_applied
    (Atype Btype : GrB_Type) (A_is_pattern B_is_pattern flipxy : Bool)
    (s : GrB_Semiring) (r : SemiringBuiltin)
    (hz : s.add.ztype = s.multiply.ztype)
    (h : GB_AxB_semiring_builtin Atype A_is_pattern Btype B_is_pattern s
          flipxy = some r) :
    (s.multiply.xtype.code = .BOOL →
      r.mult_opcode = (if flipxy then GB_flip_opcode else id)
        (match s.multiply.opcode with
          | .DIV => .FIRST
          | .RDIV => .SECOND
          | .MIN => .LAND
          | .TIMES => .LAND
          | .MAX => .LOR
          | .PLUS => .LOR
          | .NE => .LXOR
          | .ISNE => .LXOR
          | .RMINUS => .LXOR
          | .MINUS => .LXOR
          | .ISEQ => .EQ
          | .ISGT => .GT
          | .ISLT => .LT
          | .ISGE => .GE
          | .ISLE => .LE
          | op => op)) ∧
    (s.add.ztype.code = .BOOL →
      r.add_opcode =
        (match s.add.opcode with
          | .DIV => .FIRST
          | .RDIV => .SECOND
          | .MIN => .LAND
          | .TIMES => .LAND
          | .MAX => .LOR
          | .PLUS => .LOR
          | .NE => .LXOR
          | .ISNE => .LXOR
          | .RMINUS => .LXOR
          | .MINUS => .LXOR
          | .ISEQ => .EQ
          | .ISGT => .GT
          | .ISLT => .LT
          | .ISGE => .GE
          | .ISLE => .LE
          | op => op)) := by
  have hr := GB_AxB_semiring_builtin_accepted Atype Btype A_is_pattern
    B_is_pattern flipxy s r h
  subst hr
  constructor
  · intro hbool
    simp only [hbool, if_pos]
    cases flipxy <;> cases s.multiply.opcode <;> rfl
  · intro hbooladd
    rw [hz] at hbooladd
    simp only [hbooladd, if_pos]
    cases s.add.opcode <;> rfl

/-- A concrete run of `GB_boolean_rename_applied`: the boolean PLUS-TIMES
semiring is accepted and comes back renamed to LOR-LAND. -/
theorem GB_boolean_rename_applied_witness :
    ((⟨⟨⟨.BOOL, 0⟩, ⟨.BOOL, 0⟩, ⟨.BOOL, 0⟩, .PLUS⟩,
       ⟨⟨.BOOL, 0⟩, ⟨.BOOL, 0⟩, ⟨.BOOL, 0⟩, .TIMES⟩⟩ : GrB_Semiring).add.ztype
      = (⟨⟨⟨.BOOL, 0⟩, ⟨.BOOL, 0⟩, ⟨.BOOL, 0⟩, .PLUS⟩,
       ⟨⟨.BOOL, 0⟩, ⟨.BOOL, 0⟩, ⟨.BOOL, 0⟩, .TIMES⟩⟩ : GrB_Semiring).multiply.ztype) ∧
    (GB_AxB_semiring_builtin ⟨.BOOL, 0⟩ false ⟨.BOOL, 0⟩ false
      ⟨⟨⟨.BOOL, 0⟩, ⟨.BOOL, 0⟩, ⟨.BOOL, 0⟩, .PLUS⟩,
       ⟨⟨.BOOL, 0⟩, ⟨.BOOL, 0⟩, ⟨.BOOL, 0⟩, .TIMES⟩⟩ false
      = some ⟨.LAND, .LOR, .BOOL, .BOOL⟩) ∧
    (⟨.LAND, .LOR, .BOOL, .BOOL⟩ : SemiringBuiltin).mult_opcode = .LAND ∧
    (⟨.LAND, .LOR, .BOOL, .BOOL⟩ : SemiringBuiltin).add_opcode = .LOR := by
  refine ⟨rfl, by decide, ?_, ?_⟩
  · exact (GB_boolean_rename_applied ⟨.BOOL, 0⟩ ⟨.BOOL, 0⟩ false false false
      ⟨⟨⟨.BOOL, 0⟩, ⟨.BOOL, 0⟩, ⟨.BOOL, 0⟩, .PLUS⟩,
       ⟨⟨.BOOL, 0⟩, ⟨.BOOL, 0⟩, ⟨.BOOL, 0⟩, .TIMES⟩⟩
      ⟨.LAND, .LOR, .BOOL, .BOOL⟩ rfl (by decide)).1 rfl
  · exact (GB_boolean_rename_applied ⟨.BOOL, 0⟩ ⟨.BOOL, 0⟩ false false false
      ⟨⟨⟨.BOOL, 0⟩, ⟨.BOOL, 0⟩, ⟨.BOOL, 0⟩, .PLUS⟩,
       ⟨⟨.BOOL, 0⟩, ⟨.BOOL, 0⟩, ⟨.BOOL, 0⟩, .TIMES⟩⟩
      ⟨.LAND, .LOR, .BOOL, .BOOL⟩ rfl (by decide)).2 rfl

/-- C4: for every built-in semiring accepted by `GB_AxB_semiring_builtin`
with `flipxy` requested, the returned multiply opcode is obtained from the
(boolean-renamed, per C3) multiply opcode by swapping exactly the pairs
FIRST↔SECOND, LT↔GT, LE↔GE, ISLT↔ISGT, ISLE↔ISGE, DIV↔RDIV, MINUS↔RMINUS;
every opcode outside those pairs is returned unchanged (the match's default
arm). -/
theorem GB_flipxy_rewrite
    (Atype Btype : GrB_Type) (A_is_pattern B_is_pattern : Bool)
    (s : GrB_Semiring) (r : SemiringBuiltin)
    (h : GB_AxB_semiring_builtin Atype A_is_pattern Btype B_is_pattern s
          true = some r) :
    r.mult_opcode =
      (match (if s.multiply.xtype.code = .BOOL then
          GB_boolean_rename s.multiply.opcode else s.multiply.opcode) with
        | .FIRST => .SECOND
        | .SECOND => .FIRST
        | .LT => .GT
        | .GT => .LT
        | .LE => .GE
        | .GE => .LE
        | .ISLT => .ISGT
        | .ISGT => .ISLT
        | .ISLE => .ISGE
        | .ISGE => .ISLE
        | .DIV => .RDIV
        | .RDIV => .DIV
        | .MINUS => .RMINUS
        | .RMINUS => .MINUS
        | op => op) := by
  have hr := GB_AxB_semiring_builtin_accepted Atype Btype A_is_pattern
    B_is_pattern true s r h
  subst hr
  by_cases hbool : s.multiply.xtype.code = GB_Type_code.BOOL
  · simp only [hbool, if_pos, if_true]
    cases s.multiply.opcode <;> rfl
  · simp only [hbool, if_false, if_true, ite_false]
    cases s.multiply.opcode <;> rfl

/-- A concrete run of `GB_flipxy_rewrite`: the PLUS-DIV FP32 semiring with
flipxy comes back with multiply opcode RDIV. -/
theorem GB_flipxy_rewrite_witness :
    (GB_AxB_semiring_builtin ⟨.FP32, 0⟩ false ⟨.FP32, 0⟩ false
      ⟨⟨⟨.FP32, 0⟩, ⟨.FP32, 0⟩, ⟨.FP32, 0⟩, .PLUS⟩,
       ⟨⟨.FP32, 0⟩, ⟨.FP32, 0⟩, ⟨.FP32, 0⟩, .DIV⟩⟩ true
      = some ⟨.RDIV, .PLUS, .FP32, .FP32⟩) ∧
    (⟨.RDIV, .PLUS, .FP32, .FP32⟩ : SemiringBuiltin).mult_opcode = .RDIV := by
  refine ⟨by decide, ?_⟩
  exact GB_flipxy_rewrite ⟨.FP32, 0⟩ ⟨.FP32, 0⟩ false false
    ⟨⟨⟨.FP32, 0⟩, ⟨.FP32, 0⟩, ⟨.FP32, 0⟩, .PLUS⟩,
     ⟨⟨.FP32, 0⟩, ⟨.FP32, 0⟩, ⟨.FP32, 0⟩, .DIV⟩⟩
    ⟨.RDIV, .PLUS, .FP32, .FP32⟩ (by decide)

--------------------------------------------------------------------------------
-- Theorems: C5 (terminal short-circuit)
--------------------------------------------------------------------------------

/-- For an absorbing terminal value, folding the monoid over any further
products leaves the terminal value in place. -/
theorem foldl_absorbs {V : Type} (fadd : V → V → V) (tv : V)
    (hterm : ∀ v, fadd tv v = tv) (l : List V) :
    l.foldl fadd tv = tv := by
  induction l with
  | nil => rfl
  | cons t ts ih => simpa [List.foldl_cons, hterm t] using ih

/-- The inner loop without a terminal value is a plain left fold. -/
theorem GB_dot_reduce_none_eq_foldl {V : Type} [DecidableEq V]
    (fadd : V → V → V) (cij : V) (l : List V) :
    GB_dot_reduce fadd none cij l = l.foldl fadd cij := by
  induction l generalizing cij with
  | nil => rfl
  | cons t ts ih => simpa [GB_dot_reduce] using ih (fadd cij t)

/-- C5: for every monoid with a terminal value `tv` satisfying
`fadd tv v = tv` for all `v`, the dot-product inner accumulation with the
terminal short-circuit (`GB_DOT_TERMINAL` breaks as soon as the cell equals
`tv`) computes the same value as the full, non-short-circuited reduction
over all products. -/
theorem GB_dot_terminal_shortcircuit {V : Type} [DecidableEq V]
    (fadd : V → V → V) (tv : V) (hterm : ∀ v, fadd tv v = tv)
    (cij : V) (l : List V) :
    GB_dot_reduce fadd (some tv) cij l = GB_dot_reduce fadd none cij l ∧
    GB_dot_reduce fadd none cij l = l.foldl fadd cij := by
  refine ⟨?_, GB_dot_reduce_none_eq_foldl fadd cij l⟩
  induction l generalizing cij with
  | nil => rfl
  | cons t ts ih =>
    simp only [GB_dot_reduce]
    by_cases hstop : fadd cij t = tv
    · rw [if_pos hstop, hstop, GB_dot_reduce_none_eq_foldl,
        foldl_absorbs fadd tv hterm]
    · simpa [hstop] using ih (fadd cij t)

/-- A concrete run of `GB_dot_terminal_shortcircuit`: the LOR monoid with
terminal `true` over a short product list. -/
theorem GB_dot_terminal_shortcircuit_witness :
    GB_dot_reduce or (some true) false [false, true, false] =
      GB_dot_reduce or none false [false, true, false] ∧
    GB_dot_reduce or none false [false, true, false] =
      [false, true, false].foldl or false :=
  GB_dot_terminal_shortcircuit or true (fun v => by cases v <;> rfl)
    false [false, true, false]

--------------------------------------------------------------------------------
-- Theorems: C2 (transplant fast path)
--------------------------------------------------------------------------------

/-- C2: in GB_ewise, when `accum` is absent, the mask (if any) was already
applied while building `T` (no entry of `T` survives where the effective
mask is false), and `C_replace` is true or `C` has no entries, transplanting
`T` directly into `C` (typecast to `C`'s type) is logically equal to running
the full masked-accumulation protocol; in particular with `M` absent,
`accum` absent and `C_replace` true, the protocol leaves `C` logically equal
to (the typecast of) `T`. -/
theorem GB_ewise_transplant_equiv {MB Z V : Type} (C : Mat V)
    (M : Option (Mat MB)) (mcast : MB → Bool) (Mask_struct Mask_comp : Bool)
    (castZ : Z → V) (T : Mat Z) (C_replace : Bool)
    (hmask : ∀ i j, maskEval M mcast Mask_struct Mask_comp i j = false →
      T i j = none)
    (hrep : C_replace = true ∨ ∀ i j, C i j = none) :
    (∀ i j, GB_transplant castZ T i j =
      accum_mask_protocol C M mcast Mask_struct Mask_comp none castZ T
        C_replace i j) ∧
    (∀ (C0 : Mat V) i j,
      accum_mask_protocol C0 (none : Option (Mat MB)) mcast Mask_struct false
        none castZ T true i j = (T i j).map castZ) := by
  constructor
  · intro i j
    by_cases hm : maskEval M mcast Mask_struct Mask_comp i j = true
    · simp [GB_transplant, accum_mask_protocol, hm]
    · rw [Bool.not_eq_true] at hm
      have hT := hmask i j hm
      rcases hrep with hrep | hrep
      · simp [GB_transplant, accum_mask_protocol, hm, hT, hrep]
      · simp [GB_transplant, accum_mask_protocol, hm, hT, hrep i j]
  · intro C0 i j
    simp [accum_mask_protocol, maskEval]

/-- A concrete run of `GB_ewise_transplant_equiv`: no mask, replace
requested; the transplant agrees with the protocol at cell (0, 1). -/
theorem GB_ewise_transplant_equiv_witness :
    (GB_transplant (fun z : Nat => z + 1)
        (fun i j => if i = 0 ∧ j = 1 then some 5 else none) 0 1 =
      accum_mask_protocol (fun _ _ => some 9)
        (none : Option (Mat Bool)) (fun b => b) false false none
        (fun z : Nat => z + 1)
        (fun i j => if i = 0 ∧ j = 1 then some 5 else none) true 0 1) ∧
    (accum_mask_protocol (fun _ _ => some 9) (none : Option (Mat Bool))
        (fun b => b) false false none (fun z : Nat => z + 1)
        (fun i j => if i = 0 ∧ j = 1 then some 5 else none) true 2 3 =
      ((fun i j => if i = 0 ∧ j = 1 then some 5 else none) 2 3).map
        (fun z : Nat => z + 1)) := by
  have h := GB_ewise_transplant_equiv (fun _ _ => some 9)
    (none : Option (Mat Bool)) (fun b => b) false false
    (fun z : Nat => z + 1)
    (fun i j => if i = 0 ∧ j = 1 then some 5 else none) true
    (by intro i j hc; simp [maskEval] at hc) (Or.inl rfl)
  exact ⟨h.1 0 1, h.2 (fun _ _ => some 9) 2 3⟩

--------------------------------------------------------------------------------
-- Theorems: C7 (up-front validation in GB_ewise)
--------------------------------------------------------------------------------

/-- C7: up-front operand validation with no partial writes in GB_ewise.
Provided the checks that the source runs earlier all pass, a dimension
mismatch between the transpose-adjusted dimensions of A, B and C's
dimensions makes the call return the dimension-mismatch error, and (for
eWiseAdd) an impossible typecast of C's type from A's or B's type makes it
return the domain-mismatch error; in both cases the error is returned
before the rest of the function runs, with `C` returned unchanged, for
every possible remainder `rest`. -/
theorem GB_ewise_upfront_checks {V : Type}
    (rest : EwiseInputs V → GrB_Info × EwMatrix V) (inp : EwiseInputs V)
    (hacc : (match inp.accum with
             | some acc => acc.opcode.isPositional
             | none => false) = false)
    (hcompat : GB_compatible_model inp.C.type (inp.M.map (·.type)) inp.accum
      inp.op.ztype = true)
    (hbinop : GB_BinaryOp_compatible_model inp.op inp.A.type inp.B.type
      = true) :
    ((inp.eWiseAdd = true →
        GB_Type_compatible inp.C.type inp.A.type = true ∧
        GB_Type_compatible inp.C.type inp.B.type = true) →
      ((if inp.A_transpose then inp.A.ncols else inp.A.nrows) ≠
          (if inp.B_transpose then inp.B.ncols else inp.B.nrows) ∨
        (if inp.A_transpose then inp.A.nrows else inp.A.ncols) ≠
          (if inp.B_transpose then inp.B.nrows else inp.B.ncols) ∨
        inp.C.nrows ≠ (if inp.A_transpose then inp.A.ncols else inp.A.nrows) ∨
        inp.C.ncols ≠ (if inp.B_transpose then inp.B.nrows else inp.B.ncols)) →
      GB_ewise_front rest inp = (.GrB_DIMENSION_MISMATCH, inp.C)) ∧
    (inp.eWiseAdd = true →
      (GB_Type_compatible inp.C.type inp.A.type = false ∨
        GB_Type_compatible inp.C.type inp.B.type = false) →
      GB_ewise_front rest inp = (.GrB_DOMAIN_MISMATCH, inp.C)) := by
  constructor
  · intro hcasts hdims
    have hA := (hcasts · |>.1)
    have hB := (hcasts · |>.2)
    simp only [GB_ewise_front, hacc, hcompat, hbinop, Bool.not_true,
      Bool.false_eq_true, if_false]
    have hA' : (inp.eWiseAdd && !GB_Type_compatible inp.C.type inp.A.type)
        = false := by
      cases hwa : inp.eWiseAdd
      · simp
      · simp [hA hwa]
    have hB' : (inp.eWiseAdd && !GB_Type_compatible inp.C.type inp.B.type)
        = false := by
      cases hwa : inp.eWiseAdd
      · simp
      · simp [hB hwa]
    simp only [hA', hB', Bool.false_eq_true, if_false]
    rw [if_pos hdims]
  · intro hadd hbad
    simp only [GB_ewise_front, hacc, hcompat, hbinop, Bool.not_true,
      Bool.false_eq_true, if_false]
    rcases hbad with hbad | hbad
    · rw [if_pos (by simp [hadd, hbad])]
    · by_cases hCA : GB_Type_compatible inp.C.type inp.A.type = true
      · rw [if_neg (by simp [hCA]), if_pos (by simp [hadd, hbad])]
      · rw [if_pos (by simp [hadd, Bool.of_not_eq_true hCA])]

/-- A concrete run of `GB_ewise_upfront_checks`: a 2-by-3 A against a
3-by-3 B (no transposes) is rejected with a dimension mismatch and an
unchanged C, even with a remainder that would wreck C. -/
theorem GB_ewise_upfront_checks_witness :
    GB_ewise_front
      (fun inp => (GrB_Info.GrB_PANIC,
        { inp.C with nrows := 0, ncols := 0, entries := fun _ _ => none }))
      { C := ⟨2, 3, ⟨.FP32, 0⟩, fun _ _ => some (1 : Nat)⟩,
        C_replace := false, M := none, Mask_comp := false,
        Mask_struct := false, accum := none,
        op := ⟨⟨.FP32, 0⟩, ⟨.FP32, 0⟩, ⟨.FP32, 0⟩, .PLUS⟩,
        A := ⟨2, 3, ⟨.FP32, 0⟩, fun _ _ => some 2⟩, A_transpose := false,
        B := ⟨3, 3, ⟨.FP32, 0⟩, fun _ _ => some 3⟩, B_transpose := false,
        eWiseAdd := true } =
      (.GrB_DIMENSION_MISMATCH,
        ⟨2, 3, ⟨.FP32, 0⟩, fun _ _ => some (1 : Nat)⟩) := by
  exact (GB_ewise_upfront_checks _ _ rfl (by decide) (by decide)).1
    (fun _ => ⟨by decide, by decide⟩) (by simp)

--------------------------------------------------------------------------------
-- Theorems: C8 (export finalizes first)
--------------------------------------------------------------------------------

/-- C8: on every successful call, GxB_Matrix_export_CSC returns a matrix in
sparse CSC form with no zombies and no pending tuples; when the caller's
`jumbled` argument is NULL the matrix is fully waited, so it is not jumbled
(each column sorted); when `jumbled` is non-NULL only pending tuples and
zombies are resolved, and the matrix's (possibly still set) jumbled flag is
reported through `*jumbled`. -/
theorem GxB_export_csc_finalized (A : GB_MatrixState) (jumbled_given : Bool) :
    (GxB_Matrix_export_CSC_model A jumbled_given).1.sparsity = .sparse ∧
    (GxB_Matrix_export_CSC_model A jumbled_given).1.is_csc = true ∧
    (GxB_Matrix_export_CSC_model A jumbled_given).1.nzombies = 0 ∧
    (GxB_Matrix_export_CSC_model A jumbled_given).1.npending = 0 ∧
    (jumbled_given = false →
      (GxB_Matrix_export_CSC_model A jumbled_given).1.jumbled = false) ∧
    (jumbled_given = true →
      (GxB_Matrix_export_CSC_model A jumbled_given).2 =
        some (GxB_Matrix_export_CSC_model A jumbled_given).1.jumbled) ∧
    (jumbled_given = false →
      (GxB_Matrix_export_CSC_model A jumbled_given).2 = none) := by
  cases jumbled_given <;> cases hc : A.is_csc <;>
    simp [GxB_Matrix_export_CSC_model, GB_transpose_to_csc, GB_matrix_wait,
      GB_matrix_wait_if_pending_or_zombies, GB_convert_any_to_sparse_model, hc]

/-- A concrete run of `GxB_export_csc_finalized` on a CSR bitmap matrix
with pending work, with the `jumbled` output requested. -/
theorem GxB_export_csc_finalized_witness :
    (GxB_Matrix_export_CSC_model ⟨false, .bitmap, 3, 2, true⟩ true).1.sparsity
      = .sparse ∧
    (GxB_Matrix_export_CSC_model ⟨false, .bitmap, 3, 2, true⟩ true).1.is_csc
      = true ∧
    (GxB_Matrix_export_CSC_model ⟨false, .bitmap, 3, 2, true⟩ true).1.nzombies
      = 0 ∧
    (GxB_Matrix_export_CSC_model ⟨false, .bitmap, 3, 2, true⟩ true).1.npending
      = 0 ∧
    (true = false →
      (GxB_Matrix_export_CSC_model ⟨false, .bitmap, 3, 2, true⟩
        true).1.jumbled = false) ∧
    (true = true →
      (GxB_Matrix_export_CSC_model ⟨false, .bitmap, 3, 2, true⟩ true).2 =
        some (GxB_Matrix_export_CSC_model ⟨false, .bitmap, 3, 2, true⟩
          true).1.jumbled) ∧
    (true = false →
      (GxB_Matrix_export_CSC_model ⟨false, .bitmap, 3, 2, true⟩ true).2
        = none) :=
  GxB_export_csc_finalized ⟨false, .bitmap, 3, 2, true⟩ true

--------------------------------------------------------------------------------
-- Theorems: C9 (FIRST accumulator is the identity)
--------------------------------------------------------------------------------

/-- Accumulating with `first (c, a) = c` leaves every cell of C unchanged. -/
theorem dense_accum_entries_first {V W : Type} (A : List (Nat × Nat × W))
    (C : Nat → Nat → V) (i j : Nat) :
    dense_accum_entries (fun c _ => c) C A i j = C i j := by
  induction A generalizing C with
  | nil => rfl
  | cons e t ih =>
    simp only [dense_accum_entries, List.foldl_cons] at *
    rw [ih]
    by_cases hij : i = e.1 ∧ j = e.2.1 <;> simp [hij]

/-- C9: the dense accumulation `C += A` is an identity operation when the
accumulator's opcode is FIRST: GB_dense_accum_sparse and GB_subassign_23
return success immediately with `C` entirely unchanged, GB_subassign_23
does the same whenever `C` is iso, and the generic accumulation path with
the FIRST semantics `first (c, a) = c` would also leave every cell of `C`
unchanged. -/
theorem GB_first_accum_identity {V W : Type} (C : Nat → Nat → V)
    (C_iso : Bool) (A : List (Nat × Nat × W)) (f : V → W → V) :
    GB_dense_accum_sparse_model C A .FIRST f = (.GrB_SUCCESS, C) ∧
    GB_subassign_23_model C C_iso A .FIRST f = (.GrB_SUCCESS, C) ∧
    (∀ opc, GB_subassign_23_model C true A opc f = (.GrB_SUCCESS, C)) ∧
    (∀ i j, dense_accum_entries (fun c _ => c) C A i j = C i j) := by
  refine ⟨rfl, by simp [GB_subassign_23_model], fun opc => ?_,
    fun i j => dense_accum_entries_first A C i j⟩
  simp [GB_subassign_23_model]

/-- A concrete run of `GB_first_accum_identity` at opcode FIRST on a small
dense C and two entries of A. -/
theorem GB_first_accum_identity_witness :
    GB_dense_accum_sparse_model (fun i j => i + j) [(0, 0, 7), (1, 1, 8)]
      .FIRST (fun c a => c + a) = (.GrB_SUCCESS, fun i j => i + j) ∧
    GB_subassign_23_model (fun i j => i + j) false [(0, 0, 7), (1, 1, 8)]
      .FIRST (fun c a => c + a) = (.GrB_SUCCESS, fun i j => i + j) ∧
    (∀ opc, GB_subassign_23_model (fun i j => i + j) true [(0, 0, 7), (1, 1, 8)]
      opc (fun c a => c + a) = (.GrB_SUCCESS, fun i j => i + j)) ∧
    (∀ i j, dense_accum_entries (fun c _ => c) (fun i j => i + j)
      [(0, 0, 7), (1, 1, 8)] i j = (fun i j : Nat => i + j) i j) :=
  GB_first_accum_identity (fun i j => i + j) false [(0, 0, 7), (1, 1, 8)]
    (fun c a => c + a)

--------------------------------------------------------------------------------
-- Theorems: C10 (import takes ownership)
--------------------------------------------------------------------------------

/-- C10: GxB_Matrix_import_CSC takes ownership of the caller's arrays.
Within the index bounds accepted by `GB_IMPORT_CHECK`: a NULL `Ap` handle,
or `nvals > 0` with a NULL `Ai` or `Ax` handle, yields the null-pointer
error; on success the caller's `*Ap` is NULL and so are `*Ai` and `*Ax`
whenever those handles were passed (transplanted for `nvals > 0`, freed for
`nvals = 0`, where NULL `Ai`/`Ax` handles are accepted), and the resulting
matrix is non-hypersparse (`h = NULL`), CSC, with `nzmax = nvals` and
`plen = nvec = ncols`; moreover when the caller's arrays satisfy the CSC
invariants the resulting matrix satisfies them too. -/
theorem GxB_import_csc_ownership {V : Type} (nrows ncols nvals : Nat)
    (Ap Ai : Option (Option (List Nat))) (Ax : Option (Option (List V)))
    (hr : nrows ≤ GxB_INDEX_MAX) (hc : ncols ≤ GxB_INDEX_MAX)
    (hn : nvals ≤ GxB_INDEX_MAX) :
    (Ap = none →
      GxB_Matrix_import_CSC_model nrows ncols nvals Ap Ai Ax =
        .error .GrB_NULL_POINTER) ∧
    (0 < nvals → (Ai = none ∨ Ax = none) →
      GxB_Matrix_import_CSC_model nrows ncols nvals Ap Ai Ax =
        .error .GrB_NULL_POINTER) ∧
    (∀ m ap2 ai2 ax2,
      GxB_Matrix_import_CSC_model nrows ncols nvals Ap Ai Ax =
        .ok (m, ap2, ai2, ax2) →
      ap2 = some none ∧
      (Ai.isSome = true → ai2 = some none) ∧
      (Ax.isSome = true → ax2 = some none) ∧
      m.h = none ∧ m.is_csc = true ∧ m.nzmax = nvals ∧
      m.plen = ncols ∧ m.nvec = ncols ∧ m.nrows = nrows ∧ m.ncols = ncols) ∧
    (∀ pl il xl, Ap = some (some pl) → Ai = some (some il) →
      Ax = some (some xl) →
      pl.length = ncols + 1 → pl.headD 0 = 0 → List.Chain' (· ≤ ·) pl →
      pl.getLastD 0 = nvals → il.length = nvals → xl.length = nvals →
      (∀ r ∈ il, r < nrows) →
      ∀ m q, GxB_Matrix_import_CSC_model nrows ncols nvals Ap Ai Ax =
        .ok (m, q) → CSCImportWellformed m) := by
  have hbound : ¬(nrows > GxB_INDEX_MAX ∨ ncols > GxB_INDEX_MAX ∨
      nvals > GxB_INDEX_MAX) := by omega
  refine ⟨?_, ?_, ?_, ?_⟩
  · intro hap
    simp [GxB_Matrix_import_CSC_model, hbound, hap]
  · intro hpos hnull
    have : (Ai.isNone ∨ Ax.isNone) := by
      rcases hnull with h | h <;> simp [h]
    rcases hap : Ap with _ | ap0
    · simp [GxB_Matrix_import_CSC_model, hbound]
    · simp only [GxB_Matrix_import_CSC_model, if_neg hbound]
      rw [if_neg (by simp), if_pos ⟨hpos, this⟩]
  · intro m ap2 ai2 ax2 h
    simp only [GxB_Matrix_import_CSC_model] at h
    rw [if_neg hbound] at h
    by_cases hap : Ap.isNone = true
    · rw [if_pos hap] at h
      exact absurd h (by simp)
    · rw [if_neg hap] at h
      by_cases hnull : 0 < nvals ∧ (Ai.isNone = true ∨ Ax.isNone = true)
      · rw [if_pos hnull] at h
        exact absurd h (by simp)
      · rw [if_neg hnull] at h
        by_cases hz : nvals = 0
        · rw [if_pos hz] at h
          rw [Except.ok.injEq, Prod.mk.injEq, Prod.mk.injEq, Prod.mk.injEq]
            at h
          obtain ⟨hm, h2, h3, h4⟩ := h
          subst hm h2 h3 h4
          refine ⟨rfl, ?_, ?_, rfl, rfl, rfl, rfl, rfl, rfl, rfl⟩
          · intro hi
            rcases Ai with _ | ai0
            · simp at hi
            · rfl
          · intro hx
            rcases Ax with _ | ax0
            · simp at hx
            · rfl
        · rw [if_neg hz] at h
          rw [Except.ok.injEq, Prod.mk.injEq, Prod.mk.injEq, Prod.mk.injEq]
            at h
          obtain ⟨hm, h2, h3, h4⟩ := h
          subst hm h2 h3 h4
          exact ⟨rfl, fun _ => rfl, fun _ => rfl, rfl, rfl, rfl, rfl, rfl,
            rfl, rfl⟩
  · intro pl il xl hap hai hax hlen hhead hchain hlast hil hxl hbnd m q h
    subst hap hai hax
    simp only [GxB_Matrix_import_CSC_model] at h
    rw [if_neg hbound, if_neg (by simp), if_neg (by simp)] at h
    by_cases hz : nvals = 0
    · rw [if_pos hz] at h
      rw [Except.ok.injEq, Prod.mk.injEq] at h
      obtain ⟨hm, _⟩ := h
      subst hm
      exact ⟨⟨pl, rfl, hlen, hhead, hchain, by simpa [hz] using hlast⟩,
        Or.inl hz⟩
    · rw [if_neg hz] at h
      rw [Except.ok.injEq, Prod.mk.injEq] at h
      obtain ⟨hm, _⟩ := h
      subst hm
      exact ⟨⟨pl, rfl, hlen, hhead, hchain, hlast⟩,
        Or.inr ⟨il, xl, rfl, rfl, hil, hxl, hbnd⟩⟩

/-- A concrete run of `GxB_import_csc_ownership`: a 2-by-2 CSC import with
two entries succeeds, empties the caller's handles, and yields a wellformed
non-hypersparse CSC matrix with `nzmax = 2`. -/
theorem GxB_import_csc_ownership_witness :
    (GxB_Matrix_import_CSC_model 2 2 2 (some (some [0, 1, 2]))
        (some (some [0, 1])) (some (some [5, 6])) =
      .ok ((⟨2, 2, true, none, some [0, 1, 2], some [0, 1],
          some [(5 : Nat), 6], 2, 2, 2⟩ : CSCImport Nat),
        some none, some none, some none)) ∧
    CSCImportWellformed
      (⟨2, 2, true, none, some [0, 1, 2], some [0, 1],
        some [(5 : Nat), 6], 2, 2, 2⟩ : CSCImport Nat) := by
  constructor
  · rfl
  · exact (GxB_import_csc_ownership 2 2 2 (some (some [0, 1, 2]))
      (some (some [0, 1])) (some (some [5, 6]))
      (by decide) (by decide) (by decide)).2.2.2
      [0, 1, 2] [0, 1] [5, 6] rfl rfl rfl rfl rfl (by simp) rfl rfl rfl
      (by decide) _ _ rfl

--------------------------------------------------------------------------------
-- Sorted sparse vectors: lookup and density lemmas
--------------------------------------------------------------------------------

/-- On a vector with strictly increasing indices, `lookup` succeeds with `v`
exactly when `(i, v)` is one of the stored entries. -/
theorem SpVec.lookup_eq_some_iff {V : Type} (a : SpVec V)
    (hs : (a.map Prod.fst).Pairwise (· < ·)) (i : Nat) (v : V) :
    SpVec.lookup a i = some v ↔ (i, v) ∈ a := by
  induction a with
  | nil => simp [SpVec.lookup]
  | cons e t ih =>
    obtain ⟨k, w⟩ := e
    simp only [List.map_cons, List.pairwise_cons] at hs
    obtain ⟨hk, ht⟩ := hs
    by_cases hki : k = i
    · subst hki
      rw [show SpVec.lookup ((k, w) :: t) k = some w from by
        simp [SpVec.lookup]]
      constructor
      · intro hv
        have hwv : w = v := Option.some.inj hv
        subst hwv
        exact List.mem_cons_self _ t
      · intro hv
        rcases List.mem_cons.mp hv with hv | hv
        · injection hv with h1 h2
          rw [h2]
        · exact absurd (hk k (List.mem_map_of_mem Prod.fst hv))
            (lt_irrefl k)
    · rw [show SpVec.lookup ((k, w) :: t) i = SpVec.lookup t i from by
        simp [SpVec.lookup, hki]]
      rw [ih ht, List.mem_cons]
      constructor
      · exact Or.inr
      · rintro (hv | hv)
        · exact absurd (Prod.ext_iff.mp hv).1.symm hki
        · exact hv

/-- Every entry's index is at least the head's index. -/
theorem SpVec.head_key_le {V : Type} (a : SpVec V) (d : Nat × V)
    (hs : (a.map Prod.fst).Pairwise (· < ·)) {e : Nat × V} (he : e ∈ a) :
    (a.headD d).1 ≤ e.1 := by
  cases a with
  | nil => cases he
  | cons x t =>
    simp only [List.map_cons, List.pairwise_cons] at hs
    rcases List.mem_cons.mp he with he | he
    · subst he; exact le_refl _
    · exact le_of_lt (hs.1 e.1 (List.mem_map_of_mem Prod.fst he))

/-- Every entry's index is at most the last entry's index. -/
theorem SpVec.key_le_last {V : Type} :
    ∀ (a : SpVec V), (a.map Prod.fst).Pairwise (· < ·) →
      ∀ (d : Nat × V), ∀ e ∈ a, e.1 ≤ (a.getLastD d).1 := by
  intro a
  induction a with
  | nil => intro _ d e he; cases he
  | cons x t ih =>
    intro hs d e he
    simp only [List.map_cons, List.pairwise_cons] at hs
    rw [List.getLastD_cons]
    rcases List.mem_cons.mp he with he | he
    · subst he
      cases t with
      | nil => exact le_refl _
      | cons y t2 =>
        have hy : e.1 < y.1 :=
          hs.1 y.1 (List.mem_map_of_mem Prod.fst (List.mem_cons_self y t2))
        exact le_of_lt
          (lt_of_lt_of_le hy (ih hs.2 e y (List.mem_cons_self y t2)))
    · exact ih hs.2 x e he

/-- Lower bound: in a strictly increasing list of naturals, the entry at
position `p` is at least the head plus `p`. -/
theorem sorted_head_add_le_get (l : List Nat) (hs : l.Pairwise (· < ·)) :
    ∀ p (hp : p < l.length), l.headD 0 + p ≤ l.get ⟨p, hp⟩ := by
  induction l with
  | nil => intro p hp; cases hp
  | cons x t ih =>
    intro p hp
    cases p with
    | zero => simp
    | succ q =>
      simp only [List.pairwise_cons] at hs
      have hq : q < t.length := Nat.lt_of_succ_lt_succ hp
      have hht : t.headD 0 ∈ t := by
        cases t with
        | nil => cases hq
        | cons y t2 => exact List.mem_cons_self y t2
      have hxy : x < t.headD 0 := hs.1 _ hht
      have := ih hs.2 q hq
      simp only [List.headD_cons, List.get_cons_succ]
      omega

/-- Upper bound: in a strictly increasing list of naturals bounded by `b`,
the entry at position `p` leaves room for the `length - 1 - p` larger
entries after it. -/
theorem sorted_get_bound (l : List Nat) (hs : l.Pairwise (· < ·)) (b : Nat)
    (hb : ∀ x ∈ l, x < b) :
    ∀ p (hp : p < l.length), l.get ⟨p, hp⟩ + (l.length - 1 - p) < b := by
  induction l with
  | nil => intro p hp; cases hp
  | cons x t ih =>
    simp only [List.pairwise_cons] at hs
    intro p hp
    cases p with
    | zero =>
      show x + ((x :: t).length - 1 - 0) < b
      cases t with
      | nil => simpa using hb x (List.mem_cons_self x [])
      | cons y t2 =>
        have h0 : (y :: t2).get ⟨0, by simp⟩ +
            ((y :: t2).length - 1 - 0) < b :=
          ih hs.2 (fun z hz => hb z (List.mem_cons_of_mem x hz)) 0 (by simp)
        have h1 : y + ((y :: t2).length - 1 - 0) < b := h0
        have hxy : x < y := hs.1 y (List.mem_cons_self y t2)
        simp only [List.length_cons] at *
        omega
    | succ q =>
      have hq : q < t.length := Nat.lt_of_succ_lt_succ hp
      have ht := ih hs.2 (fun z hz => hb z (List.mem_cons_of_mem x hz)) q hq
      show t.get ⟨q, hq⟩ + ((x :: t).length - 1 - (q + 1)) < b
      simp only [List.length_cons] at *
      omega

/-- A strictly increasing list of naturals below `vlen`, of length `vlen`,
is exactly `range vlen`: a dense vector stores every index. -/
theorem dense_keys_eq_range (vlen : Nat) (l : List Nat)
    (hs : l.Pairwise (· < ·)) (hb : ∀ x ∈ l, x < vlen)
    (hlen : l.length = vlen) : l = List.range vlen := by
  apply List.ext_get (by simpa using hlen)
  intro p h1 h2
  have hlow := sorted_head_add_le_get l hs p h1
  have hup := sorted_get_bound l hs vlen hb p h1
  rw [List.get_range]
  omega

/-- For a dense vector (all `vlen` indices present, strictly increasing),
position `i` holds exactly the entry with index `i`, and `lookup` returns
its value. -/
theorem dense_get {V : Type} (vlen : Nat) (a : SpVec V)
    (hs : (a.map Prod.fst).Pairwise (· < ·)) (hb : ∀ e ∈ a, e.1 < vlen)
    (hlen : a.length = vlen) (i : Nat) (hi : i < vlen) (d : Nat × V) :
    (a.getD i d).1 = i ∧ SpVec.lookup a i = some (a.getD i d).2 := by
  have hkeys : a.map Prod.fst = List.range vlen := by
    apply dense_keys_eq_range vlen _ hs
    · intro x hx
      obtain ⟨e, he, hex⟩ := List.mem_map.mp hx
      exact hex ▸ hb e he
    · simpa using hlen
  have hia : i < a.length := hlen ▸ hi
  have hgd : a.getD i d = a.get ⟨i, hia⟩ := List.getD_eq_get a d hia
  have hfst : (a.get ⟨i, hia⟩).1 = i := by
    have h1 : (a.map Prod.fst).get ⟨i, by simpa using hia⟩ =
        (a.get ⟨i, hia⟩).1 := by
      simp [List.get_map]
    have h2 := List.get_of_eq hkeys ⟨i, by simpa using hia⟩
    rw [List.get_range] at h2
    rw [← h1, h2]
  refine ⟨hgd ▸ hfst, ?_⟩
  rw [SpVec.lookup_eq_some_iff a hs, hgd]
  have hpair : (i, (a.get ⟨i, hia⟩).2) = a.get ⟨i, hia⟩ :=
    Prod.ext_iff.mpr ⟨hfst.symm, rfl⟩
  rw [hpair]
  exact a.get_mem _ _

/-- The head of a dense vector carries index 0. -/
theorem dense_head_key {V : Type} (vlen : Nat) (a : SpVec V)
    (hs : (a.map Prod.fst).Pairwise (· < ·)) (hb : ∀ e ∈ a, e.1 < vlen)
    (hlen : a.length = vlen) (hv : 0 < vlen) (d : Nat × V) :
    (a.headD d).1 = 0 := by
  have h0 := (dense_get vlen a hs hb hlen 0 hv d).1
  cases a with
  | nil =>
    rw [← hlen] at hv
    exact absurd hv (lt_irrefl 0)
  | cons x t => simpa using h0

--------------------------------------------------------------------------------
-- Membership characterization of each emult branch
--------------------------------------------------------------------------------

/-- The dense-dense branch computes exactly the intersection entries. -/
theorem mem_both_dense_iff {VA VB VC : Type} (vlen : Nat) (op : VA → VB → VC)
    (dA : VA) (dB : VB) (a : SpVec VA) (b : SpVec VB)
    (hsa : (a.map Prod.fst).Pairwise (· < ·))
    (hsb : (b.map Prod.fst).Pairwise (· < ·))
    (hba : ∀ e ∈ a, e.1 < vlen) (hbb : ∀ e ∈ b, e.1 < vlen)
    (hla : a.length = vlen) (hlb : b.length = vlen) (hv : 0 < vlen)
    (i : Nat) (v : VC) :
    (i, v) ∈ GB_emult_both_dense op dA dB (a.headD (0, dA)).1 a b ↔
      emultSpec op a b i v := by
  have hF : (a.headD (0, dA)).1 = 0 := dense_head_key vlen a hsa hba hla hv _
  rw [hF]
  simp only [GB_emult_both_dense, List.mem_map, List.mem_range]
  constructor
  · rintro ⟨p, hp, hpe⟩
    have hpv : p < vlen := hla ▸ hp
    obtain ⟨-, ha2⟩ := dense_get vlen a hsa hba hla p hpv (0, dA)
    obtain ⟨-, hb2⟩ := dense_get vlen b hsb hbb hlb p hpv (0, dB)
    injection hpe with hpi hpv2
    have hip : i = p := by omega
    subst hip
    exact ⟨(a.getD i (0, dA)).2, (b.getD i (0, dB)).2, ha2, hb2, hpv2.symm⟩
  · rintro ⟨av, bv, hav, hbv, hvv⟩
    have hia : (i, av) ∈ a := (SpVec.lookup_eq_some_iff a hsa i av).mp hav
    have hiv : i < vlen := hba (i, av) hia
    obtain ⟨-, ha2⟩ := dense_get vlen a hsa hba hla i hiv (0, dA)
    obtain ⟨-, hb2⟩ := dense_get vlen b hsb hbb hlb i hiv (0, dB)
    refine ⟨i, hla ▸ hiv, ?_⟩
    have hva : (a.getD i (0, dA)).2 = av := Option.some.inj (ha2.symm.trans hav)
    have hvb : (b.getD i (0, dB)).2 = bv := Option.some.inj (hb2.symm.trans hbv)
    rw [hva, hvb, Nat.add_zero, hvv]

/-- The dense-A branch computes exactly the intersection entries. -/
theorem mem_a_dense_iff {VA VB VC : Type} (vlen : Nat) (op : VA → VB → VC)
    (dA : VA) (a : SpVec VA) (b : SpVec VB)
    (hsa : (a.map Prod.fst).Pairwise (· < ·))
    (hsb : (b.map Prod.fst).Pairwise (· < ·))
    (hba : ∀ e ∈ a, e.1 < vlen) (hbb : ∀ e ∈ b, e.1 < vlen)
    (hla : a.length = vlen) (hv : 0 < vlen) (i : Nat) (v : VC) :
    (i, v) ∈ GB_emult_a_dense op dA (a.headD (0, dA)).1 a b ↔
      emultSpec op a b i v := by
  have hF : (a.headD (0, dA)).1 = 0 := dense_head_key vlen a hsa hba hla hv _
  rw [hF]
  simp only [GB_emult_a_dense, List.mem_map]
  constructor
  · rintro ⟨e, he, hee⟩
    injection hee with h1 h2
    subst h1
    have hei : e.1 < vlen := hbb e he
    obtain ⟨-, ha2⟩ := dense_get vlen a hsa hba hla e.1 hei (0, dA)
    refine ⟨(a.getD (e.1 - 0) (0, dA)).2, e.2, by simpa using ha2, ?_, h2.symm⟩
    exact (SpVec.lookup_eq_some_iff b hsb e.1 e.2).mpr (by simpa using he)
  · rintro ⟨av, bv, hav, hbv, hvv⟩
    have hib : (i, bv) ∈ b := (SpVec.lookup_eq_some_iff b hsb i bv).mp hbv
    have hiv : i < vlen := hbb (i, bv) hib
    obtain ⟨-, ha2⟩ := dense_get vlen a hsa hba hla i hiv (0, dA)
    refine ⟨(i, bv), hib, ?_⟩
    have hva : (a.getD i (0, dA)).2 = av := Option.some.inj (ha2.symm.trans hav)
    simp only [Nat.sub_zero, hva, hvv]

/-- The dense-B branch computes exactly the intersection entries. -/
theorem mem_b_dense_iff {VA VB VC : Type} (vlen : Nat) (op : VA → VB → VC)
    (dB : VB) (a : SpVec VA) (b : SpVec VB)
    (hsa : (a.map Prod.fst).Pairwise (· < ·))
    (hsb : (b.map Prod.fst).Pairwise (· < ·))
    (hba : ∀ e ∈ a, e.1 < vlen) (hbb : ∀ e ∈ b, e.1 < vlen)
    (hlb : b.length = vlen) (hv : 0 < vlen) (i : Nat) (v : VC) :
    (i, v) ∈ GB_emult_b_dense op dB (b.headD (0, dB)).1 a b ↔
      emultSpec op a b i v := by
  have hF : (b.headD (0, dB)).1 = 0 := dense_head_key vlen b hsb hbb hlb hv _
  rw [hF]
  simp only [GB_emult_b_dense, List.mem_map]
  constructor
  · rintro ⟨e, he, hee⟩
    injection hee with h1 h2
    subst h1
    have hei : e.1 < vlen := hba e he
    obtain ⟨-, hb2⟩ := dense_get vlen b hsb hbb hlb e.1 hei (0, dB)
    refine ⟨e.2, (b.getD (e.1 - 0) (0, dB)).2, ?_, by simpa using hb2, h2.symm⟩
    exact (SpVec.lookup_eq_some_iff a hsa e.1 e.2).mpr (by simpa using he)
  · rintro ⟨av, bv, hav, hbv, hvv⟩
    have hia : (i, av) ∈ a := (SpVec.lookup_eq_some_iff a hsa i av).mp hav
    have hiv : i < vlen := hba (i, av) hia
    obtain ⟨-, hb2⟩ := dense_get vlen b hsb hbb hlb i hiv (0, dB)
    refine ⟨(i, av), hia, ?_⟩
    have hvb : (b.getD i (0, dB)).2 = bv := Option.some.inj (hb2.symm.trans hbv)
    simp only [Nat.sub_zero, hvb, hvv]

/-- The binary-search-in-A branch computes exactly the intersection. -/
theorem mem_search_a_iff {VA VB VC : Type} (op : VA → VB → VC)
    (a : SpVec VA) (b : SpVec VB)
    (hsb : (b.map Prod.fst).Pairwise (· < ·)) (i : Nat) (v : VC) :
    (i, v) ∈ GB_emult_search_a op a b ↔ emultSpec op a b i v := by
  simp only [GB_emult_search_a, List.mem_filterMap, Option.map_eq_some']
  constructor
  · rintro ⟨e, he, av, hav, heq⟩
    injection heq with h1 h2
    subst h1
    refine ⟨av, e.2, hav, ?_, h2.symm⟩
    exact (SpVec.lookup_eq_some_iff b hsb e.1 e.2).mpr (by simpa using he)
  · rintro ⟨av, bv, hav, hbv, hvv⟩
    refine ⟨(i, bv), (SpVec.lookup_eq_some_iff b hsb i bv).mp hbv, av, hav, ?_⟩
    rw [hvv]

/-- The binary-search-in-B branch computes exactly the intersection. -/
theorem mem_search_b_iff {VA VB VC : Type} (op : VA → VB → VC)
    (a : SpVec VA) (b : SpVec VB)
    (hsa : (a.map Prod.fst).Pairwise (· < ·)) (i : Nat) (v : VC) :
    (i, v) ∈ GB_emult_search_b op a b ↔ emultSpec op a b i v := by
  simp only [GB_emult_search_b, List.mem_filterMap, Option.map_eq_some']
  constructor
  · rintro ⟨e, he, bv, hbv, heq⟩
    injection heq with h1 h2
    subst h1
    refine ⟨e.2, bv, ?_, hbv, h2.symm⟩
    exact (SpVec.lookup_eq_some_iff a hsa e.1 e.2).mpr (by simpa using he)
  · rintro ⟨av, bv, hav, hbv, hvv⟩
    refine ⟨(i, av), (SpVec.lookup_eq_some_iff a hsa i av).mp hav, bv, hbv, ?_⟩
    rw [hvv]

/-- No entry with an index below the head's index is in a sorted vector. -/
theorem not_mem_of_lt_head {V : Type} {x : Nat × V} {t : SpVec V}
    (hs : ((x :: t).map Prod.fst).Pairwise (· < ·)) {i : Nat} (hi : i < x.1) :
    ∀ w, (i, w) ∉ x :: t := by
  intro w hmem
  simp only [List.map_cons, List.pairwise_cons] at hs
  rcases List.mem_cons.mp hmem with h | h
  · have : i = x.1 := congrArg Prod.fst h
    omega
  · have : x.1 < i := hs.1 i (List.mem_map_of_mem Prod.fst h)
    omega

/-- The two-pointer merge of the emult template computes exactly the
entries whose index appears in both sorted vectors. -/
theorem mem_merge_iff {VA VB VC : Type} (op : VA → VB → VC) :
    ∀ (a : SpVec VA) (b : SpVec VB),
      (a.map Prod.fst).Pairwise (· < ·) →
      (b.map Prod.fst).Pairwise (· < ·) →
      ∀ i v, ((i, v) ∈ GB_emult_merge op a b ↔
        ∃ av bv, (i, av) ∈ a ∧ (i, bv) ∈ b ∧ v = op av bv) := by
  intro a b
  induction a, b using GB_emult_merge.induct op with
  | case1 b =>
    intro _ _ i v
    simp [GB_emult_merge]
  | case2 x t =>
    intro _ _ i v
    simp [GB_emult_merge]
  | case3 iA av ta iB bv tb hlt ih =>
    intro hsa hsb i v
    have hsa2 : (ta.map Prod.fst).Pairwise (· < ·) := by
      simp only [List.map_cons, List.pairwise_cons] at hsa
      exact hsa.2
    rw [show GB_emult_merge op ((iA, av) :: ta) ((iB, bv) :: tb)
        = GB_emult_merge op ta ((iB, bv) :: tb) from by
      rw [GB_emult_merge, if_pos hlt]]
    rw [ih hsa2 hsb i v]
    constructor
    · rintro ⟨av2, bv2, h1, h2, h3⟩
      exact ⟨av2, bv2, List.mem_cons_of_mem _ h1, h2, h3⟩
    · rintro ⟨av2, bv2, h1, h2, h3⟩
      rcases List.mem_cons.mp h1 with h1 | h1
      · injection h1 with hi1 hv1
        subst hi1
        exact absurd h2 (not_mem_of_lt_head hsb hlt bv2)
      · exact ⟨av2, bv2, h1, h2, h3⟩
  | case4 iA av ta iB bv tb hnlt hlt ih =>
    intro hsa hsb i v
    have hsb2 : (tb.map Prod.fst).Pairwise (· < ·) := by
      simp only [List.map_cons, List.pairwise_cons] at hsb
      exact hsb.2
    rw [show GB_emult_merge op ((iA, av) :: ta) ((iB, bv) :: tb)
        = GB_emult_merge op ((iA, av) :: ta) tb from by
      rw [GB_emult_merge, if_neg hnlt, if_pos hlt]]
    rw [ih hsa hsb2 i v]
    constructor
    · rintro ⟨av2, bv2, h1, h2, h3⟩
      exact ⟨av2, bv2, h1, List.mem_cons_of_mem _ h2, h3⟩
    · rintro ⟨av2, bv2, h1, h2, h3⟩
      rcases List.mem_cons.mp h2 with h2 | h2
      · injection h2 with hi2 hv2
        subst hi2
        exact absurd h1 (not_mem_of_lt_head hsa hlt av2)
      · exact ⟨av2, bv2, h1, h2, h3⟩
  | case5 iA av ta iB bv tb hnlt hnlt2 ih =>
    intro hsa hsb i v
    have hiab : iA = iB := by omega
    subst hiab
    have hsa2 : (ta.map Prod.fst).Pairwise (· < ·) := by
      simp only [List.map_cons, List.pairwise_cons] at hsa
      exact hsa.2
    have hsb2 : (tb.map Prod.fst).Pairwise (· < ·) := by
      simp only [List.map_cons, List.pairwise_cons] at hsb
      exact hsb.2
    have hkat : ∀ k ∈ ta.map Prod.fst, iA < k := by
      simp only [List.map_cons, List.pairwise_cons] at hsa
      exact hsa.1
    have hkbt : ∀ k ∈ tb.map Prod.fst, iA < k := by
      simp only [List.map_cons, List.pairwise_cons] at hsb
      exact hsb.1
    rw [show GB_emult_merge op ((iA, av) :: ta) ((iA, bv) :: tb)
        = (iA, op av bv) :: GB_emult_merge op ta tb from by
      rw [GB_emult_merge, if_neg hnlt, if_neg hnlt2]]
    rw [List.mem_cons, ih hsa2 hsb2 i v]
    constructor
    · rintro (h | ⟨av2, bv2, h1, h2, h3⟩)
      · injection h with h1 h2
        subst h1
        exact ⟨av, bv, List.mem_cons_self _ _, List.mem_cons_self _ _, h2⟩
      · exact ⟨av2, bv2, List.mem_cons_of_mem _ h1,
          List.mem_cons_of_mem _ h2, h3⟩
    · rintro ⟨av2, bv2, h1, h2, h3⟩
      rcases List.mem_cons.mp h1 with h1a | h1a
      · rcases List.mem_cons.mp h2 with h2a | h2a
        · left
          injection h1a with hi1 hv1
          injection h2a with hi2 hv2
          subst hi1 hv1 hv2 h3
          rfl
        · injection h1a with hi1 hv1
          subst hi1
          have hmem : i ∈ tb.map Prod.fst :=
            List.mem_map_of_mem Prod.fst h2a
          exact absurd (hkbt i hmem) (lt_irrefl i)
      · rcases List.mem_cons.mp h2 with h2a | h2a
        · injection h2a with hi2 hv2
          subst hi2
          have hmem : i ∈ ta.map Prod.fst :=
            List.mem_map_of_mem Prod.fst h1a
          exact absurd (hkat i hmem) (lt_irrefl i)
        · right
          exact ⟨av2, bv2, h1a, h2a, h3⟩

/-- If the index ranges of the two vectors are disjoint (last of one below
the head of the other), no index is present in both. -/
theorem emultSpec_disjoint {VA VB VC : Type} (op : VA → VB → VC)
    (dA : VA) (dB : VB) (a : SpVec VA) (b : SpVec VB)
    (hsa : (a.map Prod.fst).Pairwise (· < ·))
    (hsb : (b.map Prod.fst).Pairwise (· < ·))
    (hdisj : (a.getLastD (0, dA)).1 < (b.headD (0, dB)).1 ∨
      (b.getLastD (0, dB)).1 < (a.headD (0, dA)).1)
    (i : Nat) (v : VC) : ¬ emultSpec op a b i v := by
  rintro ⟨av, bv, hav, hbv, -⟩
  have hia := (SpVec.lookup_eq_some_iff a hsa i av).mp hav
  have hib := (SpVec.lookup_eq_some_iff b hsb i bv).mp hbv
  have h1 : i ≤ (a.getLastD (0, dA)).1 :=
    SpVec.key_le_last a hsa (0, dA) (i, av) hia
  have h2 : (a.headD (0, dA)).1 ≤ i := SpVec.head_key_le a (0, dA) hsa hia
  have h3 : i ≤ (b.getLastD (0, dB)).1 :=
    SpVec.key_le_last b hsb (0, dB) (i, bv) hib
  have h4 : (b.headD (0, dB)).1 ≤ i := SpVec.head_key_le b (0, dB) hsb hib
  rcases hdisj with h | h <;> omega

/-- The dense/sparse value fetch of the masked emult branch agrees with
plain association lookup (a dense vector always finds index `i`, at direct
position `i - iA_first`). -/
theorem dense_or_lookup_eq {V : Type} (vlen : Nat) (a : SpVec V)
    (d : Nat × V) (hs : (a.map Prod.fst).Pairwise (· < ·))
    (hb : ∀ e ∈ a, e.1 < vlen) (i : Nat) (hi : i < vlen) :
    (if a.length = vlen then some (a.getD (i - (a.headD d).1) d).2
     else SpVec.lookup a i) = SpVec.lookup a i := by
  by_cases hd : a.length = vlen
  · rw [if_pos hd]
    have hv : 0 < vlen := Nat.lt_of_le_of_lt (Nat.zero_le i) hi
    rw [dense_head_key vlen a hs hb hd hv d, Nat.sub_zero]
    exact ((dense_get vlen a hs hb hd i hi d).2).symm
  · rw [if_neg hd]

/-- What the masked per-entry function emits: an entry at `i` with value
`v` exactly when the mask entry is at `i` and evaluates true and both
`A(i,j)` and `B(i,j)` are present with `v = op aij bij`. -/
theorem mask_entry_eq_some_iff {VA VB VC MV : Type} (vlen : Nat)
    (op : VA → VB → VC) (dA : VA) (dB : VB) (mcast : MV → Bool)
    (Mask_struct : Bool) (a : SpVec VA) (b : SpVec VB)
    (hsa : (a.map Prod.fst).Pairwise (· < ·))
    (hsb : (b.map Prod.fst).Pairwise (· < ·))
    (hba : ∀ e ∈ a, e.1 < vlen) (hbb : ∀ e ∈ b, e.1 < vlen)
    (e : Nat × MV) (he : e.1 < vlen) (i : Nat) (v : VC) :
    GB_emult_mask_entry vlen op dA dB mcast Mask_struct a b e = some (i, v) ↔
      e.1 = i ∧ (Mask_struct = true ∨ mcast e.2 = true) ∧
        emultSpec op a b i v := by
  simp only [GB_emult_mask_entry]
  rw [dense_or_lookup_eq vlen a (0, dA) hsa hba e.1 he,
    dense_or_lookup_eq vlen b (0, dB) hsb hbb e.1 he]
  by_cases hm : (if Mask_struct then true else mcast e.2) = true
  · rw [hm]
    have hmor : Mask_struct = true ∨ mcast e.2 = true := by
      by_cases hstruct : Mask_struct
      · exact Or.inl hstruct
      · rw [if_neg hstruct] at hm
        exact Or.inr hm
    cases hA : SpVec.lookup a e.1 with
    | none =>
      simp only [Bool.not_true, Bool.false_eq_true, if_false]
      constructor
      · intro h; cases h
      · rintro ⟨he1, -, av, bv, hav, -, -⟩
        subst he1
        rw [hA] at hav
        cases hav
    | some av =>
      cases hB : SpVec.lookup b e.1 with
      | none =>
        simp only [Bool.not_true, Bool.false_eq_true, if_false]
        constructor
        · intro h; cases h
        · rintro ⟨he1, -, av2, bv2, -, hbv, -⟩
          subst he1
          rw [hB] at hbv
          cases hbv
      | some bv =>
        simp only [Bool.not_true, Bool.false_eq_true, if_false,
          Option.some.injEq]
        constructor
        · intro h
          injection h with h1 h2
          subst h1
          exact ⟨rfl, hmor, av, bv, hA, hB, h2.symm⟩
        · rintro ⟨he1, -, av2, bv2, hav, hbv, hvv⟩
          subst he1
          rw [hA] at hav
          rw [hB] at hbv
          injection hav with hav
          injection hbv with hbv
          subst hav hbv
          rw [hvv]
  · have hm2 : (if Mask_struct then true else mcast e.2) = false :=
      Bool.of_not_eq_true hm
    rw [hm2]
    simp only [Bool.not_false, if_true]
    constructor
    · intro h; cases h
    · rintro ⟨-, hmor, -⟩
      rcases hmor with hmor | hmor
      · rw [if_pos hmor] at hm2; cases hm2
      · by_cases hstruct : Mask_struct
        · rw [if_pos hstruct] at hm2; cases hm2
        · rw [if_neg hstruct, hmor] at hm2; cases hm2

/-- C1: element-wise multiply has set-intersection semantics.  For any pair
of vectors of a sparse matrix (strictly increasing inner indices below
`vlen`), the emult kernel's output contains an entry at inner index `i` iff
both `A(i,j)` and `B(i,j)` are present, in which case its value is
`op (A(i,j), B(i,j))`; with a non-complemented mask applied inside the
kernel, `M(i,j)` must additionally be present and evaluate true.  A
position absent in `A` or in `B` never yields an entry. -/
theorem GB_emult_intersection_semantics {VA VB VC MV : Type}
    (vlen : Nat) (op : VA → VB → VC) (dA : VA) (dB : VB)
    (mcast : MV → Bool) (Mask_struct : Bool)
    (a : SpVec VA) (b : SpVec VB) (m : SpVec MV)
    (hsa : (a.map Prod.fst).Pairwise (· < ·))
    (hsb : (b.map Prod.fst).Pairwise (· < ·))
    (hsm : (m.map Prod.fst).Pairwise (· < ·))
    (hba : ∀ e ∈ a, e.1 < vlen) (hbb : ∀ e ∈ b, e.1 < vlen)
    (hbm : ∀ e ∈ m, e.1 < vlen) (i : Nat) (v : VC) :
    ((i, v) ∈ GB_emult_vector vlen op dA dB a b ↔ emultSpec op a b i v) ∧
    ((i, v) ∈ GB_emult_vector_masked vlen op dA dB mcast Mask_struct a b m ↔
      ∃ mv, SpVec.lookup m i = some mv ∧
        (Mask_struct = true ∨ mcast mv = true) ∧ emultSpec op a b i v) := by
  constructor
  · simp only [GB_emult_vector]
    split_ifs with h1 h2 h3 h4 h5 h6 h7
    · rcases h1 with h1 | h1
      · rw [List.length_eq_zero] at h1
        subst h1
        simp [emultSpec, SpVec.lookup]
      · rw [List.length_eq_zero] at h1
        subst h1
        simp [emultSpec, SpVec.lookup]
    · exact iff_of_false (List.not_mem_nil _)
        (emultSpec_disjoint op dA dB a b hsa hsb h2 i v)
    · have hpos : 0 < vlen := by
        rcases not_or.mp h1 with ⟨ha0, -⟩
        omega
      exact mem_both_dense_iff vlen op dA dB a b hsa hsb hba hbb
        h3.1 h3.2 hpos i v
    · have hpos : 0 < vlen := by
        rcases not_or.mp h1 with ⟨ha0, -⟩
        omega
      exact mem_a_dense_iff vlen op dA a b hsa hsb hba hbb h4 hpos i v
    · have hpos : 0 < vlen := by
        rcases not_or.mp h1 with ⟨-, hb0⟩
        omega
      exact mem_b_dense_iff vlen op dB a b hsa hsb hba hbb h5 hpos i v
    · exact mem_search_a_iff op a b hsb i v
    · exact mem_search_b_iff op a b hsa i v
    · rw [mem_merge_iff op a b hsa hsb i v]
      constructor
      · rintro ⟨av, bv, hx1, hx2, hx3⟩
        exact ⟨av, bv, (SpVec.lookup_eq_some_iff a hsa i av).mpr hx1,
          (SpVec.lookup_eq_some_iff b hsb i bv).mpr hx2, hx3⟩
      · rintro ⟨av, bv, hx1, hx2, hx3⟩
        exact ⟨av, bv, (SpVec.lookup_eq_some_iff a hsa i av).mp hx1,
          (SpVec.lookup_eq_some_iff b hsb i bv).mp hx2, hx3⟩
  · simp only [GB_emult_vector_masked]
    split_ifs with h1 h2
    · rcases h1 with h1 | h1
      · rw [List.length_eq_zero] at h1
        subst h1
        simp [emultSpec, SpVec.lookup]
      · rw [List.length_eq_zero] at h1
        subst h1
        simp [emultSpec, SpVec.lookup]
    · refine iff_of_false (List.not_mem_nil _) ?_
      rintro ⟨mv, -, -, hspec⟩
      exact emultSpec_disjoint op dA dB a b hsa hsb h2 i v hspec
    · rw [List.mem_filterMap]
      constructor
      · rintro ⟨e, hem, hge⟩
        have he : e.1 < vlen := hbm e hem
        obtain ⟨he1, hmor, hspec⟩ := (mask_entry_eq_some_iff vlen op dA dB
          mcast Mask_struct a b hsa hsb hba hbb e he i v).mp hge
        refine ⟨e.2, ?_, hmor, hspec⟩
        rw [SpVec.lookup_eq_some_iff m hsm, ← he1]
        simpa using hem
      · rintro ⟨mv, hmv, hmor, hspec⟩
        have hmem : (i, mv) ∈ m :=
          (SpVec.lookup_eq_some_iff m hsm i mv).mp hmv
        refine ⟨(i, mv), hmem, ?_⟩
        rw [mask_entry_eq_some_iff vlen op dA dB mcast Mask_struct a b hsa
          hsb hba hbb (i, mv) (hbm (i, mv) hmem) i v]
        exact ⟨rfl, hmor, hspec⟩

/-- A concrete run of `GB_emult_intersection_semantics`: vectors with
intersection at index 2, with and without a mask. -/
theorem GB_emult_intersection_semantics_witness :
    (((2 : Nat), (15 : Nat)) ∈ GB_emult_vector 4 (fun x y : Nat => x * y) 0 0
        [(0, 2), (2, 3)] [(2, 5), (3, 7)] ↔
      emultSpec (fun x y : Nat => x * y) [(0, 2), (2, 3)] [(2, 5), (3, 7)]
        2 15) ∧
    (((2 : Nat), (15 : Nat)) ∈ GB_emult_vector_masked 4
        (fun x y : Nat => x * y) 0 0 (fun mv : Bool => mv) false
        [(0, 2), (2, 3)] [(2, 5), (3, 7)] [(2, true)] ↔
      ∃ mv, SpVec.lookup [(2, true)] 2 = some mv ∧
        (false = true ∨ (fun mv : Bool => mv) mv = true) ∧
        emultSpec (fun x y : Nat => x * y) [(0, 2), (2, 3)] [(2, 5), (3, 7)]
          2 15) :=
  GB_emult_intersection_semantics 4 (fun x y : Nat => x * y) 0 0
    (fun mv : Bool => mv) false [(0, 2), (2, 3)] [(2, 5), (3, 7)] [(2, true)]
    (by decide) (by decide) (by decide) (by decide) (by decide) (by decide)
    2 15

--------------------------------------------------------------------------------
-- Pattern-only noninterference for the dot engine
--------------------------------------------------------------------------------

/-- Two merges over B-operands with the same index pattern agree on indices
and A-values. -/
theorem merge_proj_b_congr {VA VB : Type} :
    ∀ (a : SpVec VA) (b b2 : SpVec VB),
      b.map Prod.fst = b2.map Prod.fst →
      (GB_emult_merge (fun av bv => (av, bv)) a b).map (fun e => (e.1, e.2.1))
        = (GB_emult_merge (fun av bv => (av, bv)) a b2).map
            (fun e => (e.1, e.2.1)) := by
  intro a b
  induction a, b using GB_emult_merge.induct
    (fun (av : VA) (bv : VB) => (av, bv)) with
  | case1 b =>
    intro b2 h
    simp [GB_emult_merge]
  | case2 x t =>
    intro b2 h
    have hb2 : b2 = [] := by
      cases b2 with
      | nil => rfl
      | cons e2 t2 => simp at h
    subst hb2
    rfl
  | case3 iA av ta iB bv tb hlt ih =>
    intro b2 h
    cases b2 with
    | nil => simp at h
    | cons e2 tb2 =>
      obtain ⟨k, w⟩ := e2
      simp only [List.map_cons, List.cons.injEq] at h
      obtain ⟨hk, htb⟩ := h
      subst hk
      rw [show GB_emult_merge (fun av bv => (av, bv))
            ((iA, av) :: ta) ((iB, w) :: tb2)
          = GB_emult_merge (fun av bv => (av, bv)) ta ((iB, w) :: tb2) from by
        rw [GB_emult_merge, if_pos hlt]]
      rw [show GB_emult_merge (fun av bv => (av, bv))
            ((iA, av) :: ta) ((iB, bv) :: tb)
          = GB_emult_merge (fun av bv => (av, bv)) ta ((iB, bv) :: tb) from by
        rw [GB_emult_merge, if_pos hlt]]
      exact ih ((iB, w) :: tb2) (by simp [htb])
  | case4 iA av ta iB bv tb hnlt hlt ih =>
    intro b2 h
    cases b2 with
    | nil => simp at h
    | cons e2 tb2 =>
      obtain ⟨k, w⟩ := e2
      simp only [List.map_cons, List.cons.injEq] at h
      obtain ⟨hk, htb⟩ := h
      subst hk
      rw [show GB_emult_merge (fun av bv => (av, bv))
            ((iA, av) :: ta) ((iB, w) :: tb2)
          = GB_emult_merge (fun av bv => (av, bv)) ((iA, av) :: ta) tb2 from by
        rw [GB_emult_merge, if_neg hnlt, if_pos hlt]]
      rw [show GB_emult_merge (fun av bv => (av, bv))
            ((iA, av) :: ta) ((iB, bv) :: tb)
          = GB_emult_merge (fun av bv => (av, bv)) ((iA, av) :: ta) tb from by
        rw [GB_emult_merge, if_neg hnlt, if_pos hlt]]
      exact ih tb2 htb
  | case5 iA av ta iB bv tb hnlt hnlt2 ih =>
    intro b2 h
    cases b2 with
    | nil => simp at h
    | cons e2 tb2 =>
      obtain ⟨k, w⟩ := e2
      simp only [List.map_cons, List.cons.injEq] at h
      obtain ⟨hk, htb⟩ := h
      subst hk
      rw [show GB_emult_merge (fun av bv => (av, bv))
            ((iA, av) :: ta) ((iB, w) :: tb2)
          = (iB, (av, w)) ::
              GB_emult_merge (fun av bv => (av, bv)) ta tb2 from by
        rw [GB_emult_merge, if_neg hnlt, if_neg hnlt2]]
      rw [show GB_emult_merge (fun av bv => (av, bv))
            ((iA, av) :: ta) ((iB, bv) :: tb)
          = (iB, (av, bv)) ::
              GB_emult_merge (fun av bv => (av, bv)) ta tb from by
        rw [GB_emult_merge, if_neg hnlt, if_neg hnlt2]]
      simp only [List.map_cons, List.cons.injEq]
      exact ⟨by simp, ih tb2 htb⟩

/-- Two merges over A-operands with the same index pattern agree on indices
and B-values. -/
theorem merge_proj_a_congr {VA VB : Type} :
    ∀ (a : SpVec VA) (b : SpVec VB) (a2 : SpVec VA),
      a.map Prod.fst = a2.map Prod.fst →
      (GB_emult_merge (fun av bv => (av, bv)) a b).map (fun e => (e.1, e.2.2))
        = (GB_emult_merge (fun av bv => (av, bv)) a2 b).map
            (fun e => (e.1, e.2.2)) := by
  intro a b
  induction a, b using GB_emult_merge.induct
    (fun (av : VA) (bv : VB) => (av, bv)) with
  | case1 b =>
    intro a2 h
    have ha2 : a2 = [] := by
      cases a2 with
      | nil => rfl
      | cons e2 t2 => simp at h
    subst ha2
    rfl
  | case2 x t =>
    intro a2 h
    cases a2 with
    | nil => simp [GB_emult_merge]
    | cons e2 t2 => simp [GB_emult_merge]
  | case3 iA av ta iB bv tb hlt ih =>
    intro a2 h
    cases a2 with
    | nil => simp at h
    | cons e2 ta2 =>
      obtain ⟨k, w⟩ := e2
      simp only [List.map_cons, List.cons.injEq] at h
      obtain ⟨hk, hta⟩ := h
      subst hk
      rw [show GB_emult_merge (fun av bv => (av, bv))
            ((iA, w) :: ta2) ((iB, bv) :: tb)
          = GB_emult_merge (fun av bv => (av, bv)) ta2 ((iB, bv) :: tb) from by
        rw [GB_emult_merge, if_pos hlt]]
      rw [show GB_emult_merge (fun av bv => (av, bv))
            ((iA, av) :: ta) ((iB, bv) :: tb)
          = GB_emult_merge (fun av bv => (av, bv)) ta ((iB, bv) :: tb) from by
        rw [GB_emult_merge, if_pos hlt]]
      exact ih ta2 hta
  | case4 iA av ta iB bv tb hnlt hlt ih =>
    intro a2 h
    cases a2 with
    | nil => simp at h
    | cons e2 ta2 =>
      obtain ⟨k, w⟩ := e2
      simp only [List.map_cons, List.cons.injEq] at h
      obtain ⟨hk, hta⟩ := h
      subst hk
      rw [show GB_emult_merge (fun av bv => (av, bv))
            ((iA, w) :: ta2) ((iB, bv) :: tb)
          = GB_emult_merge (fun av bv => (av, bv)) ((iA, w) :: ta2) tb from by
        rw [GB_emult_merge, if_neg hnlt, if_pos hlt]]
      rw [show GB_emult_merge (fun av bv => (av, bv))
            ((iA, av) :: ta) ((iB, bv) :: tb)
          = GB_emult_merge (fun av bv => (av, bv)) ((iA, av) :: ta) tb from by
        rw [GB_emult_merge, if_neg hnlt, if_pos hlt]]
      exact ih ((iA, w) :: ta2) (by simp [hta])
  | case5 iA av ta iB bv tb hnlt hnlt2 ih =>
    intro a2 h
    cases a2 with
    | nil => simp at h
    | cons e2 ta2 =>
      obtain ⟨k, w⟩ := e2
      simp only [List.map_cons, List.cons.injEq] at h
      obtain ⟨hk, hta⟩ := h
      subst hk
      rw [show GB_emult_merge (fun av bv => (av, bv))
            ((iA, w) :: ta2) ((iB, bv) :: tb)
          = (iB, (w, bv)) ::
              GB_emult_merge (fun av bv => (av, bv)) ta2 tb from by
        rw [GB_emult_merge, if_neg hnlt, if_neg hnlt2]]
      rw [show GB_emult_merge (fun av bv => (av, bv))
            ((iA, av) :: ta) ((iB, bv) :: tb)
          = (iB, (av, bv)) ::
              GB_emult_merge (fun av bv => (av, bv)) ta tb from by
        rw [GB_emult_merge, if_neg hnlt, if_neg hnlt2]]
      simp only [List.map_cons, List.cons.injEq]
      exact ⟨by simp, ih ta2 hta⟩

/-- A dot-style fold depends only on the image of the merged list under
the projection the multiplier actually reads. -/
theorem dotFold_congr {α β γ Z : Type} (fadd : Z → Z → Z) (t : γ → Z)
    (g1 : α → γ) (g2 : β → γ) (l1 : List α) (l2 : List β)
    (h : l1.map g1 = l2.map g2) :
    dotFold fadd (fun f => t (g1 f)) l1 =
      dotFold fadd (fun f => t (g2 f)) l2 := by
  cases l1 with
  | nil =>
    cases l2 with
    | nil => rfl
    | cons e2 r2 => simp at h
  | cons e1 r1 =>
    cases l2 with
    | nil => simp at h
    | cons e2 r2 =>
      simp only [List.map_cons, List.cons.injEq] at h
      obtain ⟨he, hr⟩ := h
      simp only [dotFold, Option.some.injEq]
      have hf1 : r1.foldl (fun c f => fadd c (t (g1 f))) (t (g1 e1)) =
          (r1.map g1).foldl (fun c p => fadd c (t p)) (t (g1 e1)) :=
        (List.foldl_map g1 (fun c p => fadd c (t p)) r1 (t (g1 e1))).symm
      have hf2 : r2.foldl (fun c f => fadd c (t (g2 f))) (t (g2 e2)) =
          (r2.map g2).foldl (fun c p => fadd c (t p)) (t (g2 e2)) :=
        (List.foldl_map g2 (fun c p => fadd c (t p)) r2 (t (g2 e2))).symm
      rw [hf1, hf2, hr, he]

/-- C6: pattern-only noninterference.  With the `A_is_pattern`/`B_is_pattern`
flags chosen by GB_AxB_dot (GB_AxB_dot_pattern_flags): for a semiring whose
multiplier opcode is FIRST the dot kernel treats `B` as pattern-only, and
two runs whose inputs differ only in `B`'s value buffer (same index pattern,
`b` versus `b2`) and in the untouched `bkj` workspace produce identical
outputs; for SECOND, likewise with `A` pattern-only; for PAIR (multiplier
`z = 1` reading neither value), the output is invariant to both value
buffers at once. -/
theorem GB_pattern_only_noninterference {VA VB T : Type}
    (fadd : T → T → T) (castA : VA → T) (castB : VB → T)
    (a0 a02 b0 b02 : T) (one : T)
    (a a2 : SpVec VA) (b b2 : SpVec VB)
    (hA : a.map Prod.fst = a2.map Prod.fst)
    (hB : b.map Prod.fst = b2.map Prod.fst) :
    (GB_dot_generic (GB_AxB_dot_pattern_flags .FIRST false).1
        (GB_AxB_dot_pattern_flags .FIRST false).2 false
        (fun x _ : T => x) fadd castA castB a0 b0 a b =
      GB_dot_generic (GB_AxB_dot_pattern_flags .FIRST false).1
        (GB_AxB_dot_pattern_flags .FIRST false).2 false
        (fun x _ : T => x) fadd castA castB a0 b02 a b2) ∧
    (GB_dot_generic (GB_AxB_dot_pattern_flags .SECOND false).1
        (GB_AxB_dot_pattern_flags .SECOND false).2 false
        (fun _ y : T => y) fadd castA castB a0 b0 a b =
      GB_dot_generic (GB_AxB_dot_pattern_flags .SECOND false).1
        (GB_AxB_dot_pattern_flags .SECOND false).2 false
        (fun _ y : T => y) fadd castA castB a02 b0 a2 b) ∧
    (GB_dot_generic (GB_AxB_dot_pattern_flags .PAIR false).1
        (GB_AxB_dot_pattern_flags .PAIR false).2 false
        (fun _ _ : T => one) fadd castA castB a0 b0 a b =
      GB_dot_generic (GB_AxB_dot_pattern_flags .PAIR false).1
        (GB_AxB_dot_pattern_flags .PAIR false).2 false
        (fun _ _ : T => one) fadd castA castB a02 b02 a2 b2) := by
  refine ⟨?_, ?_, ?_⟩
  · show GB_dot_generic false true false (fun x _ : T => x) fadd castA castB
        a0 b0 a b =
      GB_dot_generic false true false (fun x _ : T => x) fadd castA castB
        a0 b02 a b2
    simp only [GB_dot_generic]
    exact dotFold_congr fadd (fun p : Nat × VA => castA p.2)
      (fun e : Nat × VA × VB => (e.1, e.2.1))
      (fun e : Nat × VA × VB => (e.1, e.2.1)) _ _
      (merge_proj_b_congr a b b2 hB)
  · show GB_dot_generic true false false (fun _ y : T => y) fadd castA castB
        a0 b0 a b =
      GB_dot_generic true false false (fun _ y : T => y) fadd castA castB
        a02 b0 a2 b
    simp only [GB_dot_generic]
    exact dotFold_congr fadd (fun p : Nat × VB => castB p.2)
      (fun e : Nat × VA × VB => (e.1, e.2.2))
      (fun e : Nat × VA × VB => (e.1, e.2.2)) _ _
      (merge_proj_a_congr a b a2 hA)
  · show GB_dot_generic false false false (fun _ _ : T => one) fadd castA
        castB a0 b0 a b =
      GB_dot_generic false false false (fun _ _ : T => one) fadd castA castB
        a02 b02 a2 b2
    simp only [GB_dot_generic]
    have h1 := merge_proj_b_congr a b b2 hB
    have h2 := merge_proj_a_congr a b2 a2 hA
    have hidx1 : (GB_emult_merge (fun av bv => (av, bv)) a b).map
          (fun e : Nat × VA × VB => e.1)
        = (GB_emult_merge (fun av bv => (av, bv)) a b2).map
            (fun e : Nat × VA × VB => e.1) := by
      have := congrArg (List.map (fun p : Nat × VA => p.1)) h1
      simpa [List.map_map, Function.comp] using this
    have hidx2 : (GB_emult_merge (fun av bv => (av, bv)) a b2).map
          (fun e : Nat × VA × VB => e.1)
        = (GB_emult_merge (fun av bv => (av, bv)) a2 b2).map
            (fun e : Nat × VA × VB => e.1) := by
      have := congrArg (List.map (fun p : Nat × VB => p.1)) h2
      simpa [List.map_map, Function.comp] using this
    exact dotFold_congr fadd (fun _ : Nat => one)
      (fun e : Nat × VA × VB => e.1) (fun e : Nat × VA × VB => e.1) _ _
      (hidx1.trans hidx2)

/-- A concrete run of `GB_pattern_only_noninterference`: two value buffers
per operand with the same index patterns. -/
theorem GB_pattern_only_noninterference_witness :
    (GB_dot_generic (GB_AxB_dot_pattern_flags .FIRST false).1
        (GB_AxB_dot_pattern_flags .FIRST false).2 false
        (fun x _ : Nat => x) (· + ·) (fun v : Nat => v) (fun v : Nat => v)
        0 0 [(0, 1), (2, 3)] [(0, 5), (2, 7)] =
      GB_dot_generic (GB_AxB_dot_pattern_flags .FIRST false).1
        (GB_AxB_dot_pattern_flags .FIRST false).2 false
        (fun x _ : Nat => x) (· + ·) (fun v : Nat => v) (fun v : Nat => v)
        0 42 [(0, 1), (2, 3)] [(0, 8), (2, 8)]) ∧
    (GB_dot_generic (GB_AxB_dot_pattern_flags .SECOND false).1
        (GB_AxB_dot_pattern_flags .SECOND false).2 false
        (fun _ y : Nat => y) (· + ·) (fun v : Nat => v) (fun v : Nat => v)
        0 0 [(0, 1), (2, 3)] [(0, 5), (2, 7)] =
      GB_dot_generic (GB_AxB_dot_pattern_flags .SECOND false).1
        (GB_AxB_dot_pattern_flags .SECOND false).2 false
        (fun _ y : Nat => y) (· + ·) (fun v : Nat => v) (fun v : Nat => v)
        42 0 [(0, 9), (2, 9)] [(0, 5), (2, 7)]) ∧
    (GB_dot_generic (GB_AxB_dot_pattern_flags .PAIR false).1
        (GB_AxB_dot_pattern_flags .PAIR false).2 false
        (fun _ _ : Nat => 1) (· + ·) (fun v : Nat => v) (fun v : Nat => v)
        0 0 [(0, 1), (2, 3)] [(0, 5), (2, 7)] =
      GB_dot_generic (GB_AxB_dot_pattern_flags .PAIR false).1
        (GB_AxB_dot_pattern_flags .PAIR false).2 false
        (fun _ _ : Nat => 1) (· + ·) (fun v : Nat => v) (fun v : Nat => v)
        42 42 [(0, 9), (2, 9)] [(0, 8), (2, 8)]) :=
  GB_pattern_only_noninterference (· + ·) (fun v : Nat => v)
    (fun v : Nat => v) 0 42 0 42 1 [(0, 1), (2, 3)] [(0, 9), (2, 9)]
    [(0, 5), (2, 7)] [(0, 8), (2, 8)] (by decide) (by decide)

end GraphBLAS
